import Mathlib

/-!
Verification of the `ip-address` IPv4 value object (`src/lib/ipv4.ts`).

Strings are embedded as `List Char` (JS strings), JS numbers and jsbn
`BigInteger`s as `Int` (all values reached by the claims are integral and
well below 2^53, where JS number arithmetic is exact), and `null`/`NaN`
results as `Option`.
-/

namespace Ipv4

/-! ## JS / library primitives used by the source -/

/-- Digit characters as produced by JS `Number.prototype.toString(radix)`
(lowercase).  Only called with arguments below the radix (≤ 16). -/
def digitChar : Nat → Char
  | 0 => '0' | 1 => '1' | 2 => '2' | 3 => '3' | 4 => '4'
  | 5 => '5' | 6 => '6' | 7 => '7' | 8 => '8' | 9 => '9'
  | 10 => 'a' | 11 => 'b' | 12 => 'c' | 13 => 'd' | 14 => 'e' | 15 => 'f'
  | _ => '0'

/-- Numeric value of a digit character, as used by `parseInt` / jsbn;
returns 99 (never a valid digit) for non-digit characters. -/
def charDigVal (c : Char) : Nat :=
  if '0' ≤ c ∧ c ≤ '9' then c.toNat - 48
  else if 'a' ≤ c ∧ c ≤ 'f' then c.toNat - 87
  else if 'A' ≤ c ∧ c ≤ 'F' then c.toNat - 55
  else 99

/-- `s.foldl (acc * b + digit)`: the value of a digit string in base `b`. -/
def parseDigits (b : Nat) (s : List Char) : Nat :=
  s.foldl (fun a c => a * b + charDigVal c) 0

/-- JS `String.prototype.split(sep)` for a single-character separator. -/
def jsSplit (sep : Char) : List Char → List (List Char)
  | [] => [[]]
  | c :: rest =>
    match jsSplit sep rest with
    | [] => [[]]
    | g :: gs => if c = sep then [] :: g :: gs else (c :: g) :: gs

/-- JS `Array.prototype.join(sep)` for a single-character separator. -/
def joinSep (sep : Char) : List (List Char) → List Char
  | [] => []
  | [g] => g
  | g :: gs => g ++ sep :: joinSep sep gs

/-- lodash `padStart(s, len, pad)` with a single-character pad. -/
def padStart (len : Nat) (pad : Char) (s : List Char) : List Char :=
  List.replicate (len - s.length) pad ++ s

/-- JS `String.prototype.slice(start, end)`, clamping indices like JS. -/
def jsSlice (start fin : Int) (s : List Char) : List Char :=
  let len : Int := s.length
  let st : Int := if start < 0 then max (len + start) 0 else min start len
  let en : Int := if fin < 0 then max (len + fin) 0 else min fin len
  ((s.drop st.toNat).take (en - st).toNat)

/-- Minimal-length base-`b` digit string of `n`, most significant digit
first; fuel-indexed so that it is structurally recursive (the fuel is
never exhausted when it starts at `n + 1`). -/
def natToBaseAux (b : Nat) : Nat → Nat → List Char
  | 0, _ => []
  | fuel + 1, n =>
    if n < b then [digitChar n]
    else natToBaseAux b fuel (n / b) ++ [digitChar (n % b)]

/-- JS `Number.prototype.toString(b)` for a nonnegative integral number. -/
def natToBaseStr (b n : Nat) : List Char :=
  natToBaseAux b (n + 1) n

/-- Fixed-width base-`b` rendering of `n mod b^k`, most significant digit
first (the shape of a zero-padded digit string). -/
def fixedStr (b : Nat) : Nat → Nat → List Char
  | 0, _ => []
  | k + 1, n => fixedStr b k (n / b) ++ [digitChar (n % b)]

/-- JS `Number.prototype.toString(b)` on an integral number. -/
def intToBaseStr (b : Nat) (i : Int) : List Char :=
  if i < 0 then '-' :: natToBaseStr b i.natAbs else natToBaseStr b i.toNat

/-- JS number → string (base 10), for integral values. -/
def intToDecStr (i : Int) : List Char := intToBaseStr 10 i

/-- JS `String(x)` for a number that may be `NaN` (`none`). -/
def numToDecStr : Option Int → List Char
  | none => ['N', 'a', 'N']
  | some i => intToDecStr i

/-- Longest digit prefix of `s` in base `radix`; `none` when empty. -/
def parseNatPrefix (radix : Nat) (s : List Char) : Option Nat :=
  let ds := s.takeWhile (fun c => charDigVal c < radix)
  if ds = [] then none else some (parseDigits radix ds)

/-- JS `parseInt(s, radix)` on the inputs the source feeds it: an optional
leading minus sign followed by digits (`none` models `NaN`). -/
def jsParseInt (radix : Nat) (s : List Char) : Option Int :=
  if s.head? = some ('-') then
    (parseNatPrefix radix s.tail).map (fun n => -(n : Int))
  else
    (parseNatPrefix radix s).map (fun n => (n : Int))

/-- jsbn `new BigInteger(s, radix)` on the well-formed digit strings
(with an optional leading minus sign) the source constructs. -/
def bigIntFromStr (radix : Nat) (s : List Char) : Int :=
  if s.head? = some ('-') then -(parseDigits radix s.tail : Int)
  else (parseDigits radix s : Int)

/-- sprintf-js `sprintf('%02x', n)`; the source only reaches it with
numbers in [0, 255] (two lowercase hex digits). -/
def hex02 : Option Int → List Char
  | none => ['N', 'a', 'N']
  | some i => padStart 2 '0' (intToBaseStr 16 i)

/-! ## Spec-modelled constants and common helpers

`src/lib/v4/constants.ts` and `src/lib/common.ts` are not part of the
sources; the regular expressions and the shared subnet predicate are
modelled from the spec. -/

/-- Decimal digit test (`\d`): exactly the characters `'0'`–`'9'`, i.e.
those whose `charDigVal` is below 10. -/
def isDecDigit (c : Char) : Bool := decide (charDigVal c < 10)

/-- Modelled from the spec: `constants.RE_SUBNET_STRING`, a trailing
`/<digits>` subnet suffix.  Returns the matched suffix (starting at the
last `/`, all characters after it decimal digits, nonempty) or `none`. -/
def subnetSuffix : List Char → Option (List Char)
  | [] => none
  | c :: rest =>
    match subnetSuffix rest with
    | some suf => some suf
    | none =>
      if c = '/' && !rest.isEmpty && rest.all isDecDigit then some (c :: rest)
      else none

/-- One group of the dotted-decimal grammar: one to three decimal digits
with value 0–255. -/
def isAddressGroup (g : List Char) : Bool :=
  1 ≤ g.length && g.length ≤ 3 && g.all isDecDigit && parseDigits 10 g ≤ 255

/-- Modelled from the spec: `constants.RE_ADDRESS`, the anchored
dotted-decimal grammar — four groups separated by periods, each group one
to three decimal digits with value 0–255, and nothing else. -/
def matchesAddress (s : List Char) : Bool :=
  (jsSplit '.' s).length = 4 && (jsSplit '.' s).all isAddressGroup

/-- `constants.BITS` -/
def BITS : Nat := 32

/-- `constants.GROUPS` -/
def GROUPS : Nat := 4

def invalidSubnetMsg : List Char := ("Invalid subnet mask.").data

def invalidAddressMsg : List Char := ("Invalid IPv4 address.").data

/-! ## The Address4 value object -/

/-- The fields of `Address4` (`src/lib/ipv4.ts`), with the class's field
initializers as default values. -/
structure Address4 where
  address : List Char
  addressMinusSuffix : Option (List Char) := none
  error : Option (List Char) := none
  groups : Nat := GROUPS
  parsedAddress : List (List Char) := []
  parsedSubnet : List Char := []
  subnet : List Char := ['/', '3', '2']
  subnetMask : Int := 32
  v4 : Bool := true
  valid : Bool := false
deriving DecidableEq

/-- The `parse` method: splits on `.`, and validates against
`RE_ADDRESS`.  Returns (groups, valid, error). -/
def parse (address : List Char) : List (List Char) × Bool × Option (List Char) :=
  (jsSplit '.' address,
   matchesAddress address,
   if matchesAddress address then none else some invalidAddressMsg)

/-- The `Address4` constructor. -/
def mkAddress4 (address : List Char) : Address4 :=
  match subnetSuffix address with
  | some suf =>
    -- subnet[0].replace('/', '') removes the first (only) slash
    let parsedSubnet := suf.tail
    -- the suffix is nonempty decimal digits, so parseInt never yields NaN
    let m : Int := (jsParseInt 10 parsedSubnet).getD 0
    let subnet := '/' :: intToDecStr m
    if m < 0 || m > (BITS : Int) then
      { address := address, parsedSubnet := parsedSubnet, subnetMask := m,
        subnet := subnet, valid := false, error := some invalidSubnetMsg }
    else
      let addr := address.take (address.length - suf.length)
      let p := parse addr
      { address := address, parsedSubnet := parsedSubnet, subnetMask := m,
        subnet := subnet, addressMinusSuffix := some addr,
        parsedAddress := p.1, valid := p.2.1, error := p.2.2 }
  | none =>
    let p := parse address
    { address := address, addressMinusSuffix := some address,
      parsedAddress := p.1, valid := p.2.1, error := p.2.2 }

/-- `isValid()` -/
def isValid (a : Address4) : Bool := a.valid

/-- `correctForm()` -/
def correctForm (a : Address4) : List Char :=
  joinSep '.' (a.parsedAddress.map (fun part => numToDecStr (jsParseInt 10 part)))

/-- `Address4.fromHex(hex)` -/
def fromHex (hex : List Char) : Address4 :=
  let padded := padStart 8 '0' (hex.filter (fun c => c ≠ ':'))
  -- the loop `for (i = 0; i < 8; i += 2)`, unrolled
  let groups := [jsParseInt 16 (jsSlice 0 2 padded), jsParseInt 16 (jsSlice 2 4 padded),
                 jsParseInt 16 (jsSlice 4 6 padded), jsParseInt 16 (jsSlice 6 8 padded)]
  mkAddress4 (joinSep '.' (groups.map numToDecStr))

/-- `Address4.fromInteger(n)` -/
def fromInteger (i : Int) : Address4 :=
  fromHex (intToBaseStr 16 i)

/-- `toHex()` -/
def toHex (a : Address4) : List Char :=
  joinSep ':' (a.parsedAddress.map (fun part => hex02 (jsParseInt 10 part)))

/-- `toArray()` (`NaN` entries modelled as `none`) -/
def toArray (a : Address4) : List (Option Int) :=
  a.parsedAddress.map (fun part => jsParseInt 10 part)

/-- `bigInteger()`: `null` on an invalid address. -/
def bigInteger (a : Address4) : Option Int :=
  if !a.valid then none
  else some (bigIntFromStr 16
    (List.flatten (a.parsedAddress.map (fun n => hex02 (jsParseInt 10 n)))))

/-- `binaryZeroPad()`; dereferences `bigInteger()`, so it has no result
on an invalid address. -/
def binaryZeroPad (a : Address4) : Option (List Char) :=
  (bigInteger a).map (fun v => padStart BITS '0' (intToBaseStr 2 v))

/-- `getBitsBase2(start, end)` -/
def getBitsBase2 (a : Address4) (start fin : Int) : Option (List Char) :=
  (binaryZeroPad a).map (fun s => jsSlice start fin s)

/-- `mask(mask?)`, defaulting to the address's own subnet mask. -/
def maskBits (a : Address4) (m : Option Int) : Option (List Char) :=
  getBitsBase2 a 0 (m.getD a.subnetMask)

/-- `Address4.fromBigInteger(b)`: decimal string → `parseInt` → integer →
hex string → `fromHex`. -/
def fromBigInteger (i : Int) : Address4 :=
  fromInteger ((jsParseInt 10 (intToDecStr i)).getD 0)

/-- `_startAddress()`: mask bits extended with zeros, parsed base 2. -/
def startAddressBI (a : Address4) : Option Int :=
  (maskBits a none).map (fun bits =>
    bigIntFromStr 2 (bits ++ List.replicate (((BITS : Int) - a.subnetMask).toNat) '0'))

/-- `startAddress()` -/
def startAddress (a : Address4) : Option Address4 :=
  (startAddressBI a).map fromBigInteger

/-- `startAddressExclusive()` -/
def startAddressExclusive (a : Address4) : Option Address4 :=
  (startAddressBI a).map (fun v => fromBigInteger (v + 1))

/-- `_endAddress()`: mask bits extended with ones, parsed base 2. -/
def endAddressBI (a : Address4) : Option Int :=
  (maskBits a none).map (fun bits =>
    bigIntFromStr 2 (bits ++ List.replicate (((BITS : Int) - a.subnetMask).toNat) '1'))

/-- `endAddress()` -/
def endAddress (a : Address4) : Option Address4 :=
  (endAddressBI a).map fromBigInteger

/-- `endAddressExclusive()` -/
def endAddressExclusive (a : Address4) : Option Address4 :=
  (endAddressBI a).map (fun v => fromBigInteger (v - 1))

/-- Modelled from the spec: `common.isInSubnet` — whether the leading
`other.subnetMask` bits of `a`'s zero-padded binary form equal the
leading `other.subnetMask` bits of `other`'s zero-padded binary form. -/
def isInSubnet (a other : Address4) : Option Bool :=
  match binaryZeroPad a, binaryZeroPad other with
  | some x, some y =>
    some (jsSlice 0 other.subnetMask x == jsSlice 0 other.subnetMask y)
  | _, _ => none

/-- `isMulticast()` -/
def isMulticast (a : Address4) : Option Bool :=
  isInSubnet a (mkAddress4 (("224.0.0.0/4").data))

/-! ## Lemmas: digit characters -/

theorem charDigVal_digitChar : ∀ m, m < 16 → charDigVal (digitChar m) = m := by decide

theorem digitChar_not_special : ∀ m, m < 16 →
    digitChar m ≠ '-' ∧ digitChar m ≠ ':' ∧ digitChar m ≠ '.' ∧ digitChar m ≠ '/' := by
  decide

theorem isDecDigit_digitChar : ∀ m, m < 10 → isDecDigit (digitChar m) = true := by decide

/-! ## Lemmas: minimal and fixed-width digit strings -/

theorem natToBaseAux_irrel (b : Nat) (hb : 2 ≤ b) :
    ∀ n f, n < f → natToBaseAux b f n = natToBaseStr b n := by
  intro n
  induction n using Nat.strong_induction_on with
  | _ n ih =>
    intro f hf
    obtain ⟨f, rfl⟩ : ∃ f', f = f' + 1 := ⟨f - 1, by omega⟩
    by_cases hn : n < b
    · simp [natToBaseAux, natToBaseStr, hn]
    · have hdiv : n / b < n := Nat.div_lt_self (by omega) (by omega)
      have h1 : natToBaseAux b f (n / b) = natToBaseStr b (n / b) :=
        ih (n / b) hdiv f (by omega)
      have h2 : natToBaseAux b n (n / b) = natToBaseStr b (n / b) :=
        ih (n / b) hdiv n hdiv
      simp only [natToBaseAux, natToBaseStr, if_neg hn]
      rw [h1, h2]

theorem natToBaseStr_unfold {b : Nat} (hb : 2 ≤ b) (n : Nat) :
    natToBaseStr b n =
      if n < b then [digitChar n]
      else natToBaseStr b (n / b) ++ [digitChar (n % b)] := by
  by_cases hn : n < b
  · simp [natToBaseStr, natToBaseAux, hn]
  · simp only [natToBaseStr, natToBaseAux, if_neg hn]
    rw [natToBaseAux_irrel b hb (n / b) n (Nat.div_lt_self (by omega) (by omega))]
    rfl

theorem natToBaseStr_ne_nil {b : Nat} (hb : 2 ≤ b) (n : Nat) :
    natToBaseStr b n ≠ [] := by
  rw [natToBaseStr_unfold hb]
  by_cases hn : n < b
  · rw [if_pos hn]; exact List.cons_ne_nil _ _
  · rw [if_neg hn]
    intro h
    exact List.cons_ne_nil _ _ (List.append_eq_nil.mp h).2

theorem natToBaseStr_mem {b : Nat} (hb : 2 ≤ b) :
    ∀ n c, c ∈ natToBaseStr b n → ∃ m, m < b ∧ c = digitChar m := by
  intro n
  induction n using Nat.strong_induction_on with
  | _ n ih =>
    intro c hc
    rw [natToBaseStr_unfold hb] at hc
    by_cases hn : n < b
    · rw [if_pos hn] at hc
      simp only [List.mem_singleton] at hc
      exact ⟨n, hn, hc⟩
    · rw [if_neg hn] at hc
      rcases List.mem_append.mp hc with h | h
      · exact ih (n / b) (Nat.div_lt_self (by omega) (by omega)) c h
      · simp only [List.mem_singleton] at h
        exact ⟨n % b, Nat.mod_lt n (by omega), h⟩

theorem natToBaseStr_length_le {b : Nat} (hb : 2 ≤ b) :
    ∀ n k, n < b ^ k → 1 ≤ k → (natToBaseStr b n).length ≤ k := by
  intro n
  induction n using Nat.strong_induction_on with
  | _ n ih =>
    intro k hnk hk
    rw [natToBaseStr_unfold hb]
    by_cases hn : n < b
    · rw [if_pos hn]; simpa using hk
    · rw [if_neg hn]
      obtain ⟨k, rfl⟩ : ∃ k', k = k' + 1 := ⟨k - 1, by omega⟩
      have hk1 : 1 ≤ k := by
        rcases Nat.eq_zero_or_pos k with h0 | h1
        · subst h0
          have : n < b := by simpa using hnk
          omega
        · exact h1
      have hdiv : n / b < b ^ k := by
        rw [Nat.div_lt_iff_lt_mul (by omega)]
        calc n < b ^ (k + 1) := hnk
        _ = b ^ k * b := pow_succ b k
      have := ih (n / b) (Nat.div_lt_self (by omega) (by omega)) k hdiv hk1
      simp only [List.length_append, List.length_singleton]
      omega

theorem natToBaseStr_lt {b : Nat} (hb : 2 ≤ b) :
    ∀ n, n < b ^ (natToBaseStr b n).length := by
  intro n
  induction n using Nat.strong_induction_on with
  | _ n ih =>
    rw [natToBaseStr_unfold hb]
    by_cases hn : n < b
    · rw [if_pos hn]; simpa using hn
    · rw [if_neg hn]
      have h := ih (n / b) (Nat.div_lt_self (by omega) (by omega))
      simp only [List.length_append, List.length_singleton]
      calc n = b * (n / b) + n % b := (Nat.div_add_mod n b).symm
      _ < b * (n / b) + b := by have := Nat.mod_lt n (y := b) (by omega); omega
      _ = b * (n / b + 1) := by ring
      _ ≤ b * b ^ (natToBaseStr b (n / b)).length := by
          have : n / b + 1 ≤ b ^ (natToBaseStr b (n / b)).length := h
          exact Nat.mul_le_mul_left b this
      _ = b ^ ((natToBaseStr b (n / b)).length + 1) := (pow_succ' b _).symm

theorem fixedStr_length (b : Nat) : ∀ k n, (fixedStr b k n).length = k := by
  intro k
  induction k with
  | zero => intro n; rfl
  | succ k ih => intro n; simp [fixedStr, ih]

theorem fixedStr_mem {b : Nat} (hb : 2 ≤ b) :
    ∀ k n c, c ∈ fixedStr b k n → ∃ m, m < b ∧ c = digitChar m := by
  intro k
  induction k with
  | zero => intro n c hc; simp [fixedStr] at hc
  | succ k ih =>
    intro n c hc
    simp only [fixedStr] at hc
    rcases List.mem_append.mp hc with h | h
    · exact ih (n / b) c h
    · simp only [List.mem_singleton] at h
      exact ⟨n % b, Nat.mod_lt n (by omega), h⟩

theorem fixedStr_zero (b : Nat) : ∀ k, fixedStr b k 0 = List.replicate k '0' := by
  intro k
  induction k with
  | zero => rfl
  | succ k ih =>
    show fixedStr b k (0 / b) ++ [digitChar (0 % b)] = _
    rw [Nat.zero_div, Nat.zero_mod, ih, List.replicate_succ']
    rfl

theorem fixedStr_split (b : Nat) :
    ∀ q p n, fixedStr b (p + q) n = fixedStr b p (n / b ^ q) ++ fixedStr b q (n % b ^ q) := by
  intro q
  induction q with
  | zero =>
    intro p n
    simp [fixedStr, Nat.mod_one]
  | succ q ih =>
    intro p n
    show fixedStr b (p + q + 1) n = _
    rw [show fixedStr b (p + q + 1) n
        = fixedStr b (p + q) (n / b) ++ [digitChar (n % b)] from rfl]
    rw [ih p (n / b)]
    rw [show fixedStr b (q + 1) (n % b ^ (q + 1))
        = fixedStr b q (n % b ^ (q + 1) / b) ++ [digitChar (n % b ^ (q + 1) % b)] from rfl]
    have e1 : n / b / b ^ q = n / b ^ (q + 1) := by
      rw [Nat.div_div_eq_div_mul, ← pow_succ']
    have e2 : n % b ^ (q + 1) / b = n / b % b ^ q := by
      rw [pow_succ']
      exact Nat.mod_mul_right_div_self n b (b ^ q)
    have e3 : n % b ^ (q + 1) % b = n % b :=
      Nat.mod_mod_of_dvd n (dvd_pow_self b (Nat.succ_ne_zero q))
    rw [e1, e2, e3, List.append_assoc]

theorem fixedStr_of_natToBaseStr {b : Nat} (hb : 2 ≤ b) :
    ∀ n, fixedStr b (natToBaseStr b n).length n = natToBaseStr b n := by
  intro n
  induction n using Nat.strong_induction_on with
  | _ n ih =>
    by_cases hn : n < b
    · rw [natToBaseStr_unfold hb, if_pos hn]
      show fixedStr b 1 n = _
      simp [fixedStr, Nat.mod_eq_of_lt hn, Nat.div_eq_of_lt hn]
    · conv_lhs => rw [natToBaseStr_unfold hb, if_neg hn]
      conv_rhs => rw [natToBaseStr_unfold hb, if_neg hn]
      simp only [List.length_append, List.length_singleton]
      rw [show fixedStr b ((natToBaseStr b (n / b)).length + 1) n
          = fixedStr b (natToBaseStr b (n / b)).length (n / b) ++ [digitChar (n % b)] from rfl]
      rw [ih (n / b) (Nat.div_lt_self (by omega) (by omega))]

theorem replicate_append_natToBaseStr {b : Nat} (hb : 2 ≤ b) (j n : Nat) :
    List.replicate j '0' ++ natToBaseStr b n
      = fixedStr b (j + (natToBaseStr b n).length) n := by
  have hlt : n < b ^ (natToBaseStr b n).length := natToBaseStr_lt hb n
  rw [fixedStr_split b (natToBaseStr b n).length j n,
      Nat.div_eq_of_lt hlt, Nat.mod_eq_of_lt hlt,
      fixedStr_zero, fixedStr_of_natToBaseStr hb n]

theorem padStart_natToBaseStr {b : Nat} (hb : 2 ≤ b) {k n : Nat}
    (hn : n < b ^ k) (hk : 1 ≤ k) :
    padStart k '0' (natToBaseStr b n) = fixedStr b k n := by
  have hL : (natToBaseStr b n).length ≤ k := natToBaseStr_length_le hb n k hn hk
  unfold padStart
  rw [replicate_append_natToBaseStr hb]
  congr 1
  omega

/-! ## Lemmas: parsing digit strings -/

theorem foldl_digits_init (b : Nat) :
    ∀ (s : List Char) (a : Nat),
      s.foldl (fun x c => x * b + charDigVal c) a = a * b ^ s.length + parseDigits b s := by
  intro s
  induction s with
  | nil => intro a; simp [parseDigits]
  | cons c t ih =>
    intro a
    simp only [parseDigits, List.foldl_cons, List.length_cons] at *
    rw [ih (a * b + charDigVal c), ih (0 * b + charDigVal c), pow_succ]
    ring

theorem parseDigits_append (b : Nat) (s t : List Char) :
    parseDigits b (s ++ t) = parseDigits b s * b ^ t.length + parseDigits b t := by
  simp only [parseDigits, List.foldl_append]
  rw [foldl_digits_init]
  rfl

theorem parseDigits_singleton (b : Nat) (c : Char) :
    parseDigits b [c] = charDigVal c := by
  simp [parseDigits]

theorem parseDigits_fixedStr {b : Nat} (hb : 2 ≤ b) (hb16 : b ≤ 16) :
    ∀ k n, parseDigits b (fixedStr b k n) = n % b ^ k := by
  intro k
  induction k with
  | zero => intro n; simp [fixedStr, parseDigits, Nat.mod_one]
  | succ k ih =>
    intro n
    rw [show fixedStr b (k + 1) n
        = fixedStr b k (n / b) ++ [digitChar (n % b)] from rfl]
    rw [parseDigits_append, ih (n / b), parseDigits_singleton,
        charDigVal_digitChar (n % b) (lt_of_lt_of_le (Nat.mod_lt n (by omega)) hb16),
        List.length_singleton, pow_one, pow_succ', Nat.mod_mul]
    ring

theorem parseDigits_natToBaseStr {b : Nat} (hb : 2 ≤ b) (hb16 : b ≤ 16) (n : Nat) :
    parseDigits b (natToBaseStr b n) = n := by
  conv_lhs => rw [← fixedStr_of_natToBaseStr hb n]
  rw [parseDigits_fixedStr hb hb16, Nat.mod_eq_of_lt (natToBaseStr_lt hb n)]

/-! ## Lemmas: `jsParseInt` and `bigIntFromStr` on digit strings -/

theorem parseNatPrefix_of_digits {r : Nat} {s : List Char} (hne : s ≠ [])
    (hd : ∀ c ∈ s, charDigVal c < r) :
    parseNatPrefix r s = some (parseDigits r s) := by
  unfold parseNatPrefix
  rw [List.takeWhile_eq_self_iff.mpr (fun c hc => by
    simpa using hd c hc)]
  rw [if_neg hne]

theorem jsParseInt_of_digits {r : Nat} (hr : r ≤ 16) {s : List Char} (hne : s ≠ [])
    (hd : ∀ c ∈ s, charDigVal c < r) :
    jsParseInt r s = some ((parseDigits r s : Nat) : Int) := by
  obtain ⟨c, t, rfl⟩ := List.exists_cons_of_ne_nil hne
  have hc : charDigVal c < r := hd c (List.mem_cons_self c t)
  have hcm : c ≠ '-' := by
    intro h
    subst h
    have h99 : charDigVal ('-') = 99 := by decide
    omega
  unfold jsParseInt
  rw [if_neg (by simpa using hcm), parseNatPrefix_of_digits hne hd]
  rfl

theorem jsParseInt_natToBaseStr {b : Nat} (hb : 2 ≤ b) (hb16 : b ≤ 16) (n : Nat) :
    jsParseInt b (natToBaseStr b n) = some ((n : Nat) : Int) := by
  rw [jsParseInt_of_digits hb16 (natToBaseStr_ne_nil hb n) (fun c hc => by
    obtain ⟨m, hm, rfl⟩ := natToBaseStr_mem hb n c hc
    rwa [charDigVal_digitChar m (lt_of_lt_of_le hm hb16)]),
    parseDigits_natToBaseStr hb hb16]

theorem jsParseInt_intToDecStr (i : Int) : jsParseInt 10 (intToDecStr i) = some i := by
  by_cases hi : i < 0
  · have : intToDecStr i = '-' :: natToBaseStr 10 i.natAbs := by
      simp [intToDecStr, intToBaseStr, hi]
    rw [this]
    unfold jsParseInt
    rw [if_pos (by simp)]
    rw [show (('-') :: natToBaseStr 10 i.natAbs).tail = natToBaseStr 10 i.natAbs from rfl]
    rw [parseNatPrefix_of_digits (natToBaseStr_ne_nil (by omega) _) (fun c hc => by
      obtain ⟨m, hm, rfl⟩ := natToBaseStr_mem (b := 10) (by omega) _ c hc
      rwa [charDigVal_digitChar m (by omega)]),
      parseDigits_natToBaseStr (by omega) (by omega)]
    show some (-((i.natAbs : Nat) : Int)) = some i
    congr 1
    omega
  · have : intToDecStr i = natToBaseStr 10 i.toNat := by
      simp [intToDecStr, intToBaseStr, hi]
    rw [this, jsParseInt_natToBaseStr (by omega) (by omega)]
    congr 1
    omega

theorem bigIntFromStr_of_digits {r : Nat} (hr : r ≤ 16) {s : List Char} (hne : s ≠ [])
    (hd : ∀ c ∈ s, charDigVal c < r) :
    bigIntFromStr r s = ((parseDigits r s : Nat) : Int) := by
  obtain ⟨c, t, rfl⟩ := List.exists_cons_of_ne_nil hne
  have hc : charDigVal c < r := hd c (List.mem_cons_self c t)
  have hcm : c ≠ '-' := by
    intro h
    subst h
    have h99 : charDigVal ('-') = 99 := by decide
    omega
  unfold bigIntFromStr
  rw [if_neg (by simpa using hcm)]

theorem bigIntFromStr_fixedStr {b : Nat} (hb : 2 ≤ b) (hb16 : b ≤ 16) {k n : Nat}
    (hk : 1 ≤ k) (hn : n < b ^ k) :
    bigIntFromStr b (fixedStr b k n) = ((n : Nat) : Int) := by
  have hne : fixedStr b k n ≠ [] := by
    intro h
    have := fixedStr_length b k n
    rw [h] at this
    simp at this
    omega
  rw [bigIntFromStr_of_digits hb16 hne (fun c hc => by
    obtain ⟨m, hm, rfl⟩ := fixedStr_mem hb k n c hc
    rwa [charDigVal_digitChar m (lt_of_lt_of_le hm hb16)]),
    parseDigits_fixedStr hb hb16, Nat.mod_eq_of_lt hn]

/-! ## Lemmas: `jsSlice` -/

theorem jsSlice_eq_take_drop {s : List Char} {i j : Nat} (hij : i ≤ j)
    (hj : j ≤ s.length) :
    jsSlice (i : Int) (j : Int) s = (s.drop i).take (j - i) := by
  simp only [jsSlice]
  rw [if_neg (by omega), if_neg (by omega),
      min_eq_left (show (i : Int) ≤ (s.length : Int) by exact_mod_cast le_trans hij hj),
      min_eq_left (show (j : Int) ≤ (s.length : Int) by exact_mod_cast hj),
      show ((i : Int)).toNat = i by omega,
      show ((j : Int) - (i : Int)).toNat = j - i by omega]

/-! ## Lemmas: `jsSplit` and `joinSep` -/

theorem jsSplit_ne_nil (sep : Char) : ∀ s, jsSplit sep s ≠ [] := by
  intro s
  induction s with
  | nil => simp [jsSplit]
  | cons c rest ih =>
    cases h : jsSplit sep rest with
    | nil => exact absurd h ih
    | cons g gs =>
      simp only [jsSplit, h]
      split <;> simp

theorem jsSplit_no_sep {sep : Char} : ∀ s, sep ∉ s → jsSplit sep s = [s] := by
  intro s
  induction s with
  | nil => intro _; rfl
  | cons c rest ih =>
    intro h
    have hc : c ≠ sep := fun e => h (e ▸ List.mem_cons_self c rest)
    have hrest := ih (fun hm => h (List.mem_cons_of_mem c hm))
    simp only [jsSplit, hrest]
    rw [if_neg (by simpa using hc)]

theorem jsSplit_append_sep {sep : Char} (t : List Char) :
    ∀ g, sep ∉ g → jsSplit sep (g ++ sep :: t) = g :: jsSplit sep t := by
  intro g
  induction g with
  | nil =>
    intro _
    show jsSplit sep (sep :: t) = [] :: jsSplit sep t
    cases h : jsSplit sep t with
    | nil => exact absurd h (jsSplit_ne_nil sep t)
    | cons g' gs' =>
      simp only [jsSplit, h]
      rw [if_pos (by simp)]
  | cons c g ih =>
    intro h
    have hc : c ≠ sep := fun e => h (e ▸ List.mem_cons_self c g)
    have hg := ih (fun hm => h (List.mem_cons_of_mem c hm))
    show jsSplit sep (c :: (g ++ sep :: t)) = (c :: g) :: jsSplit sep t
    cases h' : jsSplit sep (g ++ sep :: t) with
    | nil => exact absurd h' (jsSplit_ne_nil sep _)
    | cons g' gs' =>
      simp only [jsSplit, h']
      rw [if_neg (by simpa using hc)]
      rw [h'] at hg
      rw [List.cons.injEq] at hg ⊢
      exact ⟨by rw [hg.1], hg.2⟩

theorem jsSplit_joinSep {sep : Char} :
    ∀ ts, ts ≠ [] → (∀ t ∈ ts, sep ∉ t) → jsSplit sep (joinSep sep ts) = ts := by
  intro ts
  induction ts with
  | nil => intro h; exact absurd rfl h
  | cons t ts ih =>
    intro _ hall
    cases ts with
    | nil =>
      show jsSplit sep t = [t]
      exact jsSplit_no_sep t (hall t (List.mem_cons_self t []))
    | cons t' ts' =>
      show jsSplit sep (t ++ sep :: joinSep sep (t' :: ts')) = _
      rw [jsSplit_append_sep _ t (hall t (List.mem_cons_self t _))]
      rw [ih (by simp) (fun u hu => hall u (List.mem_cons_of_mem t hu))]

theorem jsSplit_length (sep : Char) : ∀ s, (jsSplit sep s).length = s.count sep + 1 := by
  intro s
  induction s with
  | nil => rfl
  | cons c rest ih =>
    cases h : jsSplit sep rest with
    | nil => exact absurd h (jsSplit_ne_nil sep rest)
    | cons g gs =>
      rw [h] at ih
      simp only [jsSplit, h]
      by_cases hc : c = sep
      · rw [if_pos (by simpa using hc)]
        subst hc
        simp only [List.length_cons, List.count_cons_self] at ih ⊢
        omega
      · rw [if_neg (by simpa using hc)]
        rw [List.count_cons_of_ne (by exact fun e => hc e.symm)]
        simpa using ih

theorem mem_joinSep {sep : Char} :
    ∀ ts (c : Char), c ∈ joinSep sep ts → c = sep ∨ ∃ t ∈ ts, c ∈ t := by
  intro ts
  induction ts with
  | nil => intro c hc; simp [joinSep] at hc
  | cons t ts ih =>
    intro c hc
    cases ts with
    | nil =>
      right
      exact ⟨t, List.mem_cons_self t [], hc⟩
    | cons t' ts' =>
      rw [show joinSep sep (t :: t' :: ts') = t ++ sep :: joinSep sep (t' :: ts') from rfl]
        at hc
      rcases List.mem_append.mp hc with h | h
      · exact Or.inr ⟨t, List.mem_cons_self t _, h⟩
      · rcases List.mem_cons.mp h with h | h
        · exact Or.inl h
        · rcases ih c h with h | ⟨u, hu, hcu⟩
          · exact Or.inl h
          · exact Or.inr ⟨u, List.mem_cons_of_mem t hu, hcu⟩

/-! ## Lemmas: subnet suffix -/

theorem subnetSuffix_eq_none {s : List Char} (h : ('/') ∉ s) : subnetSuffix s = none := by
  induction s with
  | nil => rfl
  | cons c rest ih =>
    have hc : c ≠ '/' := fun e => h (e ▸ List.mem_cons_self c rest)
    have hrest := ih (fun hm => h (List.mem_cons_of_mem c hm))
    simp only [subnetSuffix, hrest]
    rw [if_neg (by simp [hc])]

/-! ## Lemmas: address groups and the dotted-decimal grammar -/

theorem isAddressGroup_iff {g : List Char} :
    isAddressGroup g = true ↔
      1 ≤ g.length ∧ g.length ≤ 3 ∧ (∀ c ∈ g, charDigVal c < 10) ∧
        parseDigits 10 g ≤ 255 := by
  simp [isAddressGroup, isDecDigit, List.all_eq_true, Bool.and_eq_true,
    decide_eq_true_eq, and_assoc]

theorem isAddressGroup_natToBaseStr {n : Nat} (hn : n ≤ 255) :
    isAddressGroup (natToBaseStr 10 n) = true := by
  rw [isAddressGroup_iff]
  refine ⟨?_, ?_, ?_, ?_⟩
  · have h := natToBaseStr_ne_nil (b := 10) (by omega) n
    have h2 : (natToBaseStr 10 n).length ≠ 0 := by
      simpa [List.length_eq_zero] using h
    omega
  · exact natToBaseStr_length_le (by omega) n 3 (by omega) (by omega)
  · intro c hc
    obtain ⟨m, hm, rfl⟩ := natToBaseStr_mem (by omega) n c hc
    rwa [charDigVal_digitChar m (by omega)]
  · rwa [parseDigits_natToBaseStr (by omega) (by omega)]

theorem matchesAddress_destruct {s : List Char} (h : matchesAddress s = true) :
    ∃ t0 t1 t2 t3, jsSplit ('.') s = [t0, t1, t2, t3] ∧
      isAddressGroup t0 = true ∧ isAddressGroup t1 = true ∧
      isAddressGroup t2 = true ∧ isAddressGroup t3 = true := by
  simp only [matchesAddress, Bool.and_eq_true, decide_eq_true_eq,
    List.all_eq_true] at h
  obtain ⟨hlen, hall⟩ := h
  rcases e : jsSplit ('.') s with _ | ⟨t0, _ | ⟨t1, _ | ⟨t2, _ | ⟨t3, _ | ⟨t4, rest⟩⟩⟩⟩⟩ <;>
    rw [e] at hlen <;> simp at hlen
  rw [e] at hall
  exact ⟨t0, t1, t2, t3, rfl, hall t0 (by simp), hall t1 (by simp), hall t2 (by simp),
    hall t3 (by simp)⟩

theorem matchesAddress_of_groups {s : List Char} {t0 t1 t2 t3 : List Char}
    (h : jsSplit ('.') s = [t0, t1, t2, t3])
    (h0 : isAddressGroup t0 = true) (h1 : isAddressGroup t1 = true)
    (h2 : isAddressGroup t2 = true) (h3 : isAddressGroup t3 = true) :
    matchesAddress s = true := by
  simp only [matchesAddress, h, Bool.and_eq_true, decide_eq_true_eq, List.all_eq_true]
  refine ⟨rfl, ?_⟩
  intro t ht
  simp only [List.mem_cons, List.not_mem_nil, or_false] at ht
  rcases ht with rfl | rfl | rfl | rfl <;> assumption

/-! ## Lemmas: the constructor -/

theorem mkAddress4_of_no_suffix {s : List Char} (h : subnetSuffix s = none) :
    mkAddress4 s =
      { address := s, addressMinusSuffix := some s,
        parsedAddress := jsSplit ('.') s, valid := matchesAddress s,
        error := if matchesAddress s then none else some invalidAddressMsg } := by
  simp only [mkAddress4, h, parse]

theorem mkAddress4_of_suffix_bad {s suf : List Char} (h : subnetSuffix s = some suf)
    (hm : (jsParseInt 10 suf.tail).getD 0 < 0 ∨
          (jsParseInt 10 suf.tail).getD 0 > 32) :
    mkAddress4 s =
      { address := s, parsedSubnet := suf.tail,
        subnetMask := (jsParseInt 10 suf.tail).getD 0,
        subnet := '/' :: intToDecStr ((jsParseInt 10 suf.tail).getD 0),
        valid := false, error := some invalidSubnetMsg } := by
  simp only [mkAddress4, h]
  rw [if_pos]
  rcases hm with hm | hm
  · simp only [Bool.or_eq_true, decide_eq_true_eq]
    exact Or.inl hm
  · simp only [Bool.or_eq_true, decide_eq_true_eq]
    exact Or.inr hm

theorem mkAddress4_of_suffix_ok {s suf : List Char} (h : subnetSuffix s = some suf)
    (hm : ¬((jsParseInt 10 suf.tail).getD 0 < 0 ∨
            (jsParseInt 10 suf.tail).getD 0 > 32)) :
    mkAddress4 s =
      { address := s, parsedSubnet := suf.tail,
        subnetMask := (jsParseInt 10 suf.tail).getD 0,
        subnet := '/' :: intToDecStr ((jsParseInt 10 suf.tail).getD 0),
        addressMinusSuffix := some (s.take (s.length - suf.length)),
        parsedAddress := jsSplit ('.') (s.take (s.length - suf.length)),
        valid := matchesAddress (s.take (s.length - suf.length)),
        error := if matchesAddress (s.take (s.length - suf.length)) then none
                 else some invalidAddressMsg } := by
  simp only [mkAddress4, h, parse]
  rw [if_neg]
  simp only [Bool.or_eq_true, decide_eq_true_eq]
  exact hm

theorem mkAddress4_valid_destruct {s : List Char}
    (h : (mkAddress4 s).valid = true) :
    ∃ amin, (mkAddress4 s).addressMinusSuffix = some amin ∧
      (mkAddress4 s).parsedAddress = jsSplit ('.') amin ∧
      matchesAddress amin = true ∧
      0 ≤ (mkAddress4 s).subnetMask ∧ (mkAddress4 s).subnetMask ≤ 32 := by
  cases hsuf : subnetSuffix s with
  | none =>
    rw [mkAddress4_of_no_suffix hsuf] at h ⊢
    refine ⟨s, rfl, rfl, h, ?_, ?_⟩
    · show (0 : Int) ≤ 32
      norm_num
    · show (32 : Int) ≤ 32
      norm_num
  | some suf =>
    by_cases hm : (jsParseInt 10 suf.tail).getD 0 < 0 ∨
        (jsParseInt 10 suf.tail).getD 0 > 32
    · rw [mkAddress4_of_suffix_bad hsuf hm] at h
      exact absurd h (by simp)
    · rw [mkAddress4_of_suffix_ok hsuf hm] at h ⊢
      refine ⟨s.take (s.length - suf.length), rfl, rfl, h, ?_, ?_⟩
      · show (0 : Int) ≤ (jsParseInt 10 suf.tail).getD 0
        omega
      · show (jsParseInt 10 suf.tail).getD 0 ≤ 32
        omega

/-! ## Lemmas: `bigInteger` and `binaryZeroPad` -/

theorem fixedStr_append_fixedStr {b p q x y : Nat} (hb : 2 ≤ b) (hy : y < b ^ q) :
    fixedStr b p x ++ fixedStr b q y = fixedStr b (p + q) (x * b ^ q + y) := by
  have hq : 0 < b ^ q := Nat.pos_pow_of_pos q (by omega)
  have hdiv : (x * b ^ q + y) / b ^ q = x := by
    rw [Nat.mul_comm x (b ^ q), Nat.mul_add_div hq, Nat.div_eq_of_lt hy, Nat.add_zero]
  have hmod : (x * b ^ q + y) % b ^ q = y := by
    rw [Nat.mul_comm x (b ^ q), Nat.mul_add_mod, Nat.mod_eq_of_lt hy]
  rw [fixedStr_split b q p (x * b ^ q + y), hdiv, hmod]

theorem hex02_of_le {g : Nat} (hg : g ≤ 255) :
    hex02 (some ((g : Nat) : Int)) = fixedStr 16 2 g := by
  show padStart 2 '0' (intToBaseStr 16 ((g : Nat) : Int)) = _
  rw [show intToBaseStr 16 ((g : Nat) : Int) = natToBaseStr 16 g by
    simp [intToBaseStr]]
  exact padStart_natToBaseStr (by omega) (by omega) (by omega)

theorem bigInteger_of_valid {a : Address4} (hv : a.valid = true)
    {t0 t1 t2 t3 : List Char} (hp : a.parsedAddress = [t0, t1, t2, t3])
    (h0 : isAddressGroup t0 = true) (h1 : isAddressGroup t1 = true)
    (h2 : isAddressGroup t2 = true) (h3 : isAddressGroup t3 = true) :
    bigInteger a =
      some ((((parseDigits 10 t0 * 256 + parseDigits 10 t1) * 256
        + parseDigits 10 t2) * 256 + parseDigits 10 t3 : Nat) : Int) := by
  obtain ⟨hne0, -, hd0, hv0⟩ := isAddressGroup_iff.mp h0
  obtain ⟨hne1, -, hd1, hv1⟩ := isAddressGroup_iff.mp h1
  obtain ⟨hne2, -, hd2, hv2⟩ := isAddressGroup_iff.mp h2
  obtain ⟨hne3, -, hd3, hv3⟩ := isAddressGroup_iff.mp h3
  have ne0 : t0 ≠ [] := by intro e; rw [e] at hne0; simp at hne0
  have ne1 : t1 ≠ [] := by intro e; rw [e] at hne1; simp at hne1
  have ne2 : t2 ≠ [] := by intro e; rw [e] at hne2; simp at hne2
  have ne3 : t3 ≠ [] := by intro e; rw [e] at hne3; simp at hne3
  unfold bigInteger
  rw [hv]
  simp only [Bool.not_true, Bool.false_eq_true, if_false, hp, List.map_cons,
    List.map_nil, List.flatten]
  rw [jsParseInt_of_digits (by omega) ne0 hd0, jsParseInt_of_digits (by omega) ne1 hd1,
      jsParseInt_of_digits (by omega) ne2 hd2, jsParseInt_of_digits (by omega) ne3 hd3]
  rw [hex02_of_le hv0, hex02_of_le hv1, hex02_of_le hv2, hex02_of_le hv3]
  set g0 := parseDigits 10 t0 with hg0
  set g1 := parseDigits 10 t1 with hg1
  set g2 := parseDigits 10 t2 with hg2
  set g3 := parseDigits 10 t3 with hg3
  rw [List.append_nil]
  have hdig : ∀ g : Nat, ∀ c ∈ fixedStr 16 2 g, charDigVal c < 16 := by
    intro g c hc
    obtain ⟨m, hm, rfl⟩ := fixedStr_mem (by omega) 2 g c hc
    rwa [charDigVal_digitChar m hm]
  have hall : ∀ c ∈ fixedStr 16 2 g0 ++ (fixedStr 16 2 g1 ++
      (fixedStr 16 2 g2 ++ fixedStr 16 2 g3)), charDigVal c < 16 := by
    intro c hc
    rcases List.mem_append.mp hc with h | h
    · exact hdig g0 c h
    rcases List.mem_append.mp h with h | h
    · exact hdig g1 c h
    rcases List.mem_append.mp h with h | h
    · exact hdig g2 c h
    · exact hdig g3 c h
  have hne : fixedStr 16 2 g0 ++ (fixedStr 16 2 g1 ++
      (fixedStr 16 2 g2 ++ fixedStr 16 2 g3)) ≠ [] := by
    intro h
    have := congrArg List.length h
    simp [fixedStr_length] at this
  rw [bigIntFromStr_of_digits (le_refl 16) hne hall]
  have hlen : ∀ g : Nat, (fixedStr 16 2 g).length = 2 := fun g => fixedStr_length 16 2 g
  have hpf : ∀ g : Nat, g ≤ 255 → parseDigits 16 (fixedStr 16 2 g) = g := by
    intro g hg
    rw [parseDigits_fixedStr (by omega) (by omega), Nat.mod_eq_of_lt (by norm_num; omega)]
  congr 2
  rw [parseDigits_append, parseDigits_append, parseDigits_append]
  simp only [List.length_append, hlen]
  rw [hpf g0 hv0, hpf g1 hv1, hpf g2 hv2, hpf g3 hv3]
  norm_num
  ring

theorem binaryZeroPad_of_valid {a : Address4} {V : Nat}
    (hbig : bigInteger a = some ((V : Nat) : Int)) (hV : V < 2 ^ 32) :
    binaryZeroPad a = some (fixedStr 2 32 V) := by
  unfold binaryZeroPad
  rw [hbig]
  simp only [Option.map_some']
  refine congrArg some ?_
  rw [show intToBaseStr 2 ((V : Nat) : Int) = natToBaseStr 2 V by
    simp [intToBaseStr]]
  exact padStart_natToBaseStr (b := 2) (k := 32) (n := V) (by norm_num) hV (by norm_num)

/-! ## Lemmas: `fromHex`, `fromInteger`, `fromBigInteger` -/

theorem jsParseInt_fixedStr {b k n : Nat} (hb : 2 ≤ b) (hb16 : b ≤ 16)
    (hk : 1 ≤ k) (hn : n < b ^ k) :
    jsParseInt b (fixedStr b k n) = some ((n : Nat) : Int) := by
  have hne : fixedStr b k n ≠ [] := by
    intro h
    have := fixedStr_length b k n
    rw [h] at this
    simp at this
    omega
  rw [jsParseInt_of_digits hb16 hne (fun c hc => by
    obtain ⟨m, hm, rfl⟩ := fixedStr_mem hb k n c hc
    rwa [charDigVal_digitChar m (lt_of_lt_of_le hm hb16)]),
    parseDigits_fixedStr hb hb16, Nat.mod_eq_of_lt hn]

theorem fixedStr_take {b : Nat} (k p n : Nat) (hp : p ≤ k) :
    (fixedStr b k n).take p = fixedStr b p (n / b ^ (k - p)) := by
  conv_lhs => rw [show k = p + (k - p) from by omega, fixedStr_split b (k - p) p n]
  exact List.take_left' (fixedStr_length b p _)

theorem fixedStr_drop {b : Nat} (k p n : Nat) (hp : p ≤ k) :
    (fixedStr b k n).drop p = fixedStr b (k - p) (n % b ^ (k - p)) := by
  conv_lhs => rw [show k = p + (k - p) from by omega, fixedStr_split b (k - p) p n]
  exact List.drop_left' (fixedStr_length b p _)

theorem jsSlice_int_eq_take_drop {s : List Char} {i j : Int} (hi : 0 ≤ i)
    (hij : i ≤ j) (hj : j ≤ (s.length : Int)) :
    jsSlice i j s = (s.drop i.toNat).take (j - i).toNat := by
  simp only [jsSlice]
  rw [if_neg (by omega), if_neg (by omega),
      min_eq_left (show i ≤ (s.length : Int) from le_trans hij hj),
      min_eq_left hj]

theorem numToDecStr_coe (m : Nat) :
    numToDecStr (some ((m : Nat) : Int)) = natToBaseStr 10 m := by
  simp [numToDecStr, intToDecStr, intToBaseStr]

theorem fromHex_of_padded {n : Nat} (hn : n < 2 ^ 32) {hex : List Char}
    (hpad : padStart 8 '0' (hex.filter (fun c => c ≠ ':')) = fixedStr 16 8 n) :
    fromHex hex = mkAddress4 (joinSep ('.')
      [natToBaseStr 10 (n / 2 ^ 24), natToBaseStr 10 (n / 2 ^ 16 % 256),
       natToBaseStr 10 (n / 2 ^ 8 % 256), natToBaseStr 10 (n % 256)]) := by
  have len8 : ((fixedStr 16 8 n).length : Int) = 8 := by
    rw [fixedStr_length 16 8 n]
    norm_num
  have s0 : jsSlice 0 2 (fixedStr 16 8 n) = fixedStr 16 2 (n / 2 ^ 24) := by
    rw [jsSlice_int_eq_take_drop (by norm_num) (by norm_num) (by rw [len8]; norm_num)]
    rw [show ((0 : Int)).toNat = 0 from by decide,
        show ((2 : Int) - 0).toNat = 2 from by decide, List.drop_zero]
    rw [fixedStr_take 8 2 n (by omega), show (8 : Nat) - 2 = 6 from by norm_num]
    refine congrArg (fixedStr 16 2) ?_
    norm_num
  have s1 : jsSlice 2 4 (fixedStr 16 8 n) = fixedStr 16 2 (n / 2 ^ 16 % 256) := by
    rw [jsSlice_int_eq_take_drop (by norm_num) (by norm_num) (by rw [len8]; norm_num)]
    rw [show ((2 : Int)).toNat = 2 from by decide,
        show ((4 : Int) - 2).toNat = 2 from by decide]
    rw [fixedStr_drop 8 2 n (by omega), show (8 : Nat) - 2 = 6 from by norm_num]
    rw [fixedStr_take 6 2 _ (by omega), show (6 : Nat) - 2 = 4 from by norm_num]
    refine congrArg (fixedStr 16 2) ?_
    rw [show (16 : Nat) ^ 6 = 16777216 from by norm_num,
        show (16 : Nat) ^ 4 = 65536 from by norm_num,
        show (2 : Nat) ^ 16 = 65536 from by norm_num]
    omega
  have s2 : jsSlice 4 6 (fixedStr 16 8 n) = fixedStr 16 2 (n / 2 ^ 8 % 256) := by
    rw [jsSlice_int_eq_take_drop (by norm_num) (by norm_num) (by rw [len8]; norm_num)]
    rw [show ((4 : Int)).toNat = 4 from by decide,
        show ((6 : Int) - 4).toNat = 2 from by decide]
    rw [fixedStr_drop 8 4 n (by omega), show (8 : Nat) - 4 = 4 from by norm_num]
    rw [fixedStr_take 4 2 _ (by omega), show (4 : Nat) - 2 = 2 from by norm_num]
    refine congrArg (fixedStr 16 2) ?_
    rw [show (16 : Nat) ^ 4 = 65536 from by norm_num,
        show (16 : Nat) ^ 2 = 256 from by norm_num,
        show (2 : Nat) ^ 8 = 256 from by norm_num]
    omega
  have s3 : jsSlice 6 8 (fixedStr 16 8 n) = fixedStr 16 2 (n % 256) := by
    rw [jsSlice_int_eq_take_drop (by norm_num) (by norm_num) (by rw [len8])]
    rw [show ((6 : Int)).toNat = 6 from by decide,
        show ((8 : Int) - 6).toNat = 2 from by decide]
    rw [fixedStr_drop 8 6 n (by omega), show (8 : Nat) - 6 = 2 from by norm_num]
    rw [List.take_of_length_le (le_of_eq (fixedStr_length 16 2 _))]
    refine congrArg (fixedStr 16 2) ?_
    norm_num
  have b0 : n / 2 ^ 24 ≤ 255 := by omega
  have b1 : n / 2 ^ 16 % 256 ≤ 255 := by omega
  have b2 : n / 2 ^ 8 % 256 ≤ 255 := by omega
  have b3 : n % 256 ≤ 255 := by omega
  simp only [fromHex]
  rw [hpad, s0, s1, s2, s3,
      jsParseInt_fixedStr (by omega) (by omega) (by omega) (by norm_num; omega),
      jsParseInt_fixedStr (by omega) (by omega) (by omega) (by norm_num; omega),
      jsParseInt_fixedStr (by omega) (by omega) (by omega) (by norm_num; omega),
      jsParseInt_fixedStr (by omega) (by omega) (by omega) (by norm_num; omega)]
  rw [List.map_cons, List.map_cons, List.map_cons, List.map_cons, List.map_nil]
  rw [numToDecStr_coe, numToDecStr_coe, numToDecStr_coe, numToDecStr_coe]

theorem mkAddress4_decimal_groups {b0 b1 b2 b3 : Nat}
    (h0 : b0 ≤ 255) (h1 : b1 ≤ 255) (h2 : b2 ≤ 255) (h3 : b3 ≤ 255) :
    (mkAddress4 (joinSep ('.') [natToBaseStr 10 b0, natToBaseStr 10 b1,
        natToBaseStr 10 b2, natToBaseStr 10 b3])).valid = true ∧
    (mkAddress4 (joinSep ('.') [natToBaseStr 10 b0, natToBaseStr 10 b1,
        natToBaseStr 10 b2, natToBaseStr 10 b3])).parsedAddress
      = [natToBaseStr 10 b0, natToBaseStr 10 b1, natToBaseStr 10 b2,
         natToBaseStr 10 b3] ∧
    (mkAddress4 (joinSep ('.') [natToBaseStr 10 b0, natToBaseStr 10 b1,
        natToBaseStr 10 b2, natToBaseStr 10 b3])).subnetMask = 32 := by
  have hmemtok : ∀ (m : Nat) (c : Char), c ∈ natToBaseStr 10 m →
      c ≠ '/' ∧ c ≠ '.' := by
    intro m c hc
    obtain ⟨d, hd, rfl⟩ := natToBaseStr_mem (by omega) m c hc
    obtain ⟨-, -, hdot, hslash⟩ := digitChar_not_special d (by omega)
    exact ⟨hslash, hdot⟩
  have hnoslash : ('/') ∉ joinSep ('.') [natToBaseStr 10 b0, natToBaseStr 10 b1,
      natToBaseStr 10 b2, natToBaseStr 10 b3] := by
    intro hmem
    rcases mem_joinSep _ _ hmem with h | ⟨t, ht, hct⟩
    · exact absurd h.symm (by decide)
    · simp only [List.mem_cons, List.not_mem_nil, or_false] at ht
      rcases ht with rfl | rfl | rfl | rfl <;>
        exact absurd rfl (hmemtok _ _ hct).1
  have hsuf : subnetSuffix (joinSep ('.') [natToBaseStr 10 b0, natToBaseStr 10 b1,
      natToBaseStr 10 b2, natToBaseStr 10 b3]) = none := subnetSuffix_eq_none hnoslash
  have hsplit : jsSplit ('.') (joinSep ('.') [natToBaseStr 10 b0, natToBaseStr 10 b1,
      natToBaseStr 10 b2, natToBaseStr 10 b3])
      = [natToBaseStr 10 b0, natToBaseStr 10 b1, natToBaseStr 10 b2,
         natToBaseStr 10 b3] := by
    apply jsSplit_joinSep _ (by simp)
    intro t ht
    simp only [List.mem_cons, List.not_mem_nil, or_false] at ht
    intro hdot
    rcases ht with rfl | rfl | rfl | rfl <;>
      exact absurd rfl (hmemtok _ _ hdot).2
  have hmatch : matchesAddress (joinSep ('.') [natToBaseStr 10 b0, natToBaseStr 10 b1,
      natToBaseStr 10 b2, natToBaseStr 10 b3]) = true :=
    matchesAddress_of_groups hsplit (isAddressGroup_natToBaseStr h0)
      (isAddressGroup_natToBaseStr h1) (isAddressGroup_natToBaseStr h2)
      (isAddressGroup_natToBaseStr h3)
  rw [mkAddress4_of_no_suffix hsuf]
  exact ⟨hmatch, hsplit, rfl⟩

theorem fromInteger_parsed {n : Nat} (hn : n < 2 ^ 32) :
    fromInteger ((n : Nat) : Int) = mkAddress4 (joinSep ('.')
      [natToBaseStr 10 (n / 2 ^ 24), natToBaseStr 10 (n / 2 ^ 16 % 256),
       natToBaseStr 10 (n / 2 ^ 8 % 256), natToBaseStr 10 (n % 256)]) := by
  unfold fromInteger
  rw [show intToBaseStr 16 ((n : Nat) : Int) = natToBaseStr 16 n by
    simp [intToBaseStr]]
  apply fromHex_of_padded hn
  rw [List.filter_eq_self.mpr (fun c hc => by
    obtain ⟨m, hm, rfl⟩ := natToBaseStr_mem (by omega) n c hc
    obtain ⟨-, hcolon, -, -⟩ := digitChar_not_special m (by omega)
    simpa using hcolon)]
  exact padStart_natToBaseStr (b := 16) (k := 8) (n := n) (by norm_num)
    (by norm_num; omega) (by norm_num)

theorem fromBigInteger_eq_fromInteger (i : Int) : fromBigInteger i = fromInteger i := by
  unfold fromBigInteger
  rw [jsParseInt_intToDecStr i]
  rfl

theorem bigInteger_fromInteger {n : Nat} (hn : n < 2 ^ 32) :
    bigInteger (fromInteger ((n : Nat) : Int)) = some ((n : Nat) : Int) := by
  rw [fromInteger_parsed hn]
  obtain ⟨hvalid, hparsed, -⟩ := @mkAddress4_decimal_groups
    (n / 2 ^ 24) (n / 2 ^ 16 % 256) (n / 2 ^ 8 % 256) (n % 256)
    (by omega) (by omega) (by omega) (by omega)
  rw [bigInteger_of_valid hvalid hparsed
    (isAddressGroup_natToBaseStr (by omega)) (isAddressGroup_natToBaseStr (by omega))
    (isAddressGroup_natToBaseStr (by omega)) (isAddressGroup_natToBaseStr (by omega))]
  rw [parseDigits_natToBaseStr (by omega) (by omega),
      parseDigits_natToBaseStr (by omega) (by omega),
      parseDigits_natToBaseStr (by omega) (by omega),
      parseDigits_natToBaseStr (by omega) (by omega)]
  refine congrArg some ?_
  have : ((n / 2 ^ 24 * 256 + n / 2 ^ 16 % 256) * 256 + n / 2 ^ 8 % 256) * 256 + n % 256
      = n := by omega
  rw [this]

/-! ## Lemmas: subnet boundary addresses -/

theorem fixedStr_ones : ∀ k, fixedStr 2 k (2 ^ k - 1) = List.replicate k '1' := by
  intro k
  induction k with
  | zero => rfl
  | succ k ih =>
    show fixedStr 2 k ((2 ^ (k + 1) - 1) / 2) ++ [digitChar ((2 ^ (k + 1) - 1) % 2)] = _
    have hB : 1 ≤ 2 ^ k := Nat.pos_pow_of_pos k (by omega)
    have hdiv : (2 ^ (k + 1) - 1) / 2 = 2 ^ k - 1 := by
      rw [pow_succ']
      omega
    have hmod : (2 ^ (k + 1) - 1) % 2 = 1 := by
      rw [pow_succ']
      omega
    rw [hdiv, hmod, ih, List.replicate_succ']
    rfl

theorem maskBits_of_valid {s : List Char} {V m : Nat}
    (hbin : binaryZeroPad (mkAddress4 s) = some (fixedStr 2 32 V))
    (hmask : (mkAddress4 s).subnetMask = (m : Int)) (hm : m ≤ 32) :
    maskBits (mkAddress4 s) none = some (fixedStr 2 m (V / 2 ^ (32 - m))) := by
  unfold maskBits getBitsBase2
  rw [hbin]
  simp only [Option.getD, Option.map_some']
  refine congrArg some ?_
  rw [hmask]
  rw [jsSlice_int_eq_take_drop (le_refl 0) (by omega)
      (by rw [fixedStr_length]; omega)]
  rw [show ((0 : Int)).toNat = 0 from by decide, List.drop_zero,
      show ((m : Int) - 0).toNat = m from by omega]
  exact fixedStr_take 32 m V hm

theorem boundaries_of_valid {s : List Char} (h : (mkAddress4 s).valid = true) :
    ∃ (V m : Nat), m ≤ 32 ∧ V < 2 ^ 32 ∧
      bigInteger (mkAddress4 s) = some ((V : Nat) : Int) ∧
      startAddressBI (mkAddress4 s)
        = some ((V / 2 ^ (32 - m) * 2 ^ (32 - m) : Nat) : Int) ∧
      endAddressBI (mkAddress4 s)
        = some ((V / 2 ^ (32 - m) * 2 ^ (32 - m) + (2 ^ (32 - m) - 1) : Nat) : Int) ∧
      V / 2 ^ (32 - m) * 2 ^ (32 - m) ≤ V ∧
      V ≤ V / 2 ^ (32 - m) * 2 ^ (32 - m) + (2 ^ (32 - m) - 1) ∧
      V / 2 ^ (32 - m) * 2 ^ (32 - m) + (2 ^ (32 - m) - 1) < 2 ^ 32 := by
  obtain ⟨amin, hmin, hparsed, hmatch, hm0, hm32⟩ := mkAddress4_valid_destruct h
  obtain ⟨t0, t1, t2, t3, hsplit, h0, h1, h2, h3⟩ := matchesAddress_destruct hmatch
  obtain ⟨-, -, -, hv0⟩ := isAddressGroup_iff.mp h0
  obtain ⟨-, -, -, hv1⟩ := isAddressGroup_iff.mp h1
  obtain ⟨-, -, -, hv2⟩ := isAddressGroup_iff.mp h2
  obtain ⟨-, -, -, hv3⟩ := isAddressGroup_iff.mp h3
  have hbig := bigInteger_of_valid h (hparsed.trans hsplit) h0 h1 h2 h3
  set V : Nat := ((parseDigits 10 t0 * 256 + parseDigits 10 t1) * 256
    + parseDigits 10 t2) * 256 + parseDigits 10 t3 with hV
  have hVlt : V < 2 ^ 32 := by rw [hV]; norm_num; omega
  have hbin := binaryZeroPad_of_valid hbig hVlt
  set m : Nat := (mkAddress4 s).subnetMask.toNat with hm
  have hmask : (mkAddress4 s).subnetMask = (m : Int) := by omega
  have hmle : m ≤ 32 := by omega
  have hmaskbits := maskBits_of_valid hbin hmask hmle
  have hB : 1 ≤ 2 ^ (32 - m) := Nat.pos_pow_of_pos _ (by omega)
  have hhi : V / 2 ^ (32 - m) < 2 ^ m := by
    rw [Nat.div_lt_iff_lt_mul (by omega)]
    calc V < 2 ^ 32 := hVlt
    _ = 2 ^ m * 2 ^ (32 - m) := by rw [← pow_add]; congr 1; omega
  have hstV : V / 2 ^ (32 - m) * 2 ^ (32 - m) < 2 ^ 32 := by
    calc V / 2 ^ (32 - m) * 2 ^ (32 - m) ≤ V := Nat.div_mul_le_self V _
    _ < 2 ^ 32 := hVlt
  have henV : V / 2 ^ (32 - m) * 2 ^ (32 - m) + (2 ^ (32 - m) - 1) < 2 ^ 32 := by
    have h1 : V / 2 ^ (32 - m) * 2 ^ (32 - m) + (2 ^ (32 - m) - 1)
        < (V / 2 ^ (32 - m) + 1) * 2 ^ (32 - m) := by
      rw [Nat.add_mul, Nat.one_mul]
      omega
    calc V / 2 ^ (32 - m) * 2 ^ (32 - m) + (2 ^ (32 - m) - 1)
        < (V / 2 ^ (32 - m) + 1) * 2 ^ (32 - m) := h1
    _ ≤ 2 ^ m * 2 ^ (32 - m) := Nat.mul_le_mul_right _ (by omega)
    _ = 2 ^ 32 := by rw [← pow_add]; congr 1; omega
  have htoNat : (((32 : Int) - (mkAddress4 s).subnetMask).toNat) = 32 - m := by
    rw [hmask]; omega
  refine ⟨V, m, hmle, hVlt, hbig, ?_, ?_, Nat.div_mul_le_self V _, ?_, henV⟩
  · unfold startAddressBI
    rw [hmaskbits]
    simp only [Option.map_some']
    refine congrArg some ?_
    show bigIntFromStr 2 (fixedStr 2 m (V / 2 ^ (32 - m)) ++
      List.replicate (((BITS : Int) - (mkAddress4 s).subnetMask).toNat) '0') = _
    rw [show ((BITS : Int) : Int) = (32 : Int) from by norm_num [BITS]] at *
    rw [htoNat, ← fixedStr_zero 2 (32 - m),
        fixedStr_append_fixedStr (by omega) (by omega),
        show m + (32 - m) = 32 from by omega, Nat.add_zero]
    exact bigIntFromStr_fixedStr (by omega) (by omega) (by omega) hstV
  · unfold endAddressBI
    rw [hmaskbits]
    simp only [Option.map_some']
    refine congrArg some ?_
    show bigIntFromStr 2 (fixedStr 2 m (V / 2 ^ (32 - m)) ++
      List.replicate (((BITS : Int) - (mkAddress4 s).subnetMask).toNat) '1') = _
    rw [show ((BITS : Int) : Int) = (32 : Int) from by norm_num [BITS]] at *
    rw [htoNat, ← fixedStr_ones (32 - m),
        fixedStr_append_fixedStr (by omega) (by omega),
        show m + (32 - m) = 32 from by omega]
    exact bigIntFromStr_fixedStr (by omega) (by omega) (by omega) henV
  · have := Nat.div_add_mod V (2 ^ (32 - m))
    have hmod : V % 2 ^ (32 - m) < 2 ^ (32 - m) := Nat.mod_lt V (by omega)
    have hcomm : 2 ^ (32 - m) * (V / 2 ^ (32 - m))
        = V / 2 ^ (32 - m) * 2 ^ (32 - m) := Nat.mul_comm _ _
    omega

theorem bigInteger_fromBigInteger {x : Nat} (hx : x < 2 ^ 32) :
    bigInteger (fromBigInteger ((x : Nat) : Int)) = some ((x : Nat) : Int) := by
  rw [fromBigInteger_eq_fromInteger]
  exact bigInteger_fromInteger hx

/-! ## Lemmas: `toHex` and `correctForm` on parsed groups -/

theorem ne_nil_of_one_le_length {t : List Char} (h : 1 ≤ t.length) : t ≠ [] := by
  intro e
  rw [e] at h
  simp at h

theorem correctForm_of_parsed {a : Address4} {t0 t1 t2 t3 : List Char}
    (hp : a.parsedAddress = [t0, t1, t2, t3])
    (h0 : isAddressGroup t0 = true) (h1 : isAddressGroup t1 = true)
    (h2 : isAddressGroup t2 = true) (h3 : isAddressGroup t3 = true) :
    correctForm a = joinSep ('.')
      [natToBaseStr 10 (parseDigits 10 t0), natToBaseStr 10 (parseDigits 10 t1),
       natToBaseStr 10 (parseDigits 10 t2), natToBaseStr 10 (parseDigits 10 t3)] := by
  obtain ⟨hne0, -, hd0, -⟩ := isAddressGroup_iff.mp h0
  obtain ⟨hne1, -, hd1, -⟩ := isAddressGroup_iff.mp h1
  obtain ⟨hne2, -, hd2, -⟩ := isAddressGroup_iff.mp h2
  obtain ⟨hne3, -, hd3, -⟩ := isAddressGroup_iff.mp h3
  unfold correctForm
  rw [hp]
  simp only [List.map_cons, List.map_nil]
  rw [jsParseInt_of_digits (by omega) (ne_nil_of_one_le_length hne0) hd0,
      jsParseInt_of_digits (by omega) (ne_nil_of_one_le_length hne1) hd1,
      jsParseInt_of_digits (by omega) (ne_nil_of_one_le_length hne2) hd2,
      jsParseInt_of_digits (by omega) (ne_nil_of_one_le_length hne3) hd3,
      numToDecStr_coe, numToDecStr_coe, numToDecStr_coe, numToDecStr_coe]

theorem toHex_of_parsed {a : Address4} {t0 t1 t2 t3 : List Char}
    (hp : a.parsedAddress = [t0, t1, t2, t3])
    (h0 : isAddressGroup t0 = true) (h1 : isAddressGroup t1 = true)
    (h2 : isAddressGroup t2 = true) (h3 : isAddressGroup t3 = true) :
    toHex a = joinSep (':')
      [fixedStr 16 2 (parseDigits 10 t0), fixedStr 16 2 (parseDigits 10 t1),
       fixedStr 16 2 (parseDigits 10 t2), fixedStr 16 2 (parseDigits 10 t3)] := by
  obtain ⟨hne0, -, hd0, hv0⟩ := isAddressGroup_iff.mp h0
  obtain ⟨hne1, -, hd1, hv1⟩ := isAddressGroup_iff.mp h1
  obtain ⟨hne2, -, hd2, hv2⟩ := isAddressGroup_iff.mp h2
  obtain ⟨hne3, -, hd3, hv3⟩ := isAddressGroup_iff.mp h3
  unfold toHex
  rw [hp]
  simp only [List.map_cons, List.map_nil]
  rw [jsParseInt_of_digits (by omega) (ne_nil_of_one_le_length hne0) hd0,
      jsParseInt_of_digits (by omega) (ne_nil_of_one_le_length hne1) hd1,
      jsParseInt_of_digits (by omega) (ne_nil_of_one_le_length hne2) hd2,
      jsParseInt_of_digits (by omega) (ne_nil_of_one_le_length hne3) hd3,
      hex02_of_le hv0, hex02_of_le hv1, hex02_of_le hv2, hex02_of_le hv3]

theorem padStart_of_length {n : Nat} {pad : Char} {s : List Char}
    (h : s.length = n) : padStart n pad s = s := by
  simp [padStart, h]

theorem filter_ne_joinSep {sep : Char} :
    ∀ ts, (∀ t ∈ ts, ∀ c ∈ t, c ≠ sep) →
      (joinSep sep ts).filter (fun c => c ≠ sep) = List.flatten ts := by
  intro ts
  induction ts with
  | nil => intro _; rfl
  | cons t ts ih =>
    intro h
    cases ts with
    | nil =>
      rw [show joinSep sep [t] = t from rfl, List.flatten_cons, List.flatten_nil,
          List.append_nil]
      exact List.filter_eq_self.mpr (fun c hc => by
        simpa using h t (List.mem_cons_self t []) c hc)
    | cons u ts' =>
      rw [show joinSep sep (t :: u :: ts') = t ++ sep :: joinSep sep (u :: ts') from rfl]
      rw [List.filter_append,
          List.filter_eq_self.mpr (fun c hc => by
            simpa using h t (List.mem_cons_self t _) c hc)]
      rw [show List.filter (fun c => decide (c ≠ sep)) (sep :: joinSep sep (u :: ts'))
          = List.filter (fun c => decide (c ≠ sep)) (joinSep sep (u :: ts')) from by
        simp [List.filter_cons]]
      rw [ih (fun v hv => h v (List.mem_cons_of_mem t hv))]
      simp [List.flatten_cons]

theorem concat4_fixedStr {g0 g1 g2 g3 : Nat} (h0 : g0 ≤ 255) (h1 : g1 ≤ 255)
    (h2 : g2 ≤ 255) (h3 : g3 ≤ 255) :
    fixedStr 16 2 g0 ++ (fixedStr 16 2 g1 ++ (fixedStr 16 2 g2 ++ fixedStr 16 2 g3))
      = fixedStr 16 8 (((g0 * 256 + g1) * 256 + g2) * 256 + g3) := by
  rw [fixedStr_append_fixedStr (b := 16) (p := 2) (q := 2) (x := g2) (y := g3)
      (by omega) (by norm_num; omega)]
  rw [show (2 : Nat) + 2 = 4 from rfl, show (16 : Nat) ^ 2 = 256 from by norm_num]
  rw [fixedStr_append_fixedStr (b := 16) (p := 2) (q := 4) (x := g1)
      (y := g2 * 256 + g3) (by omega) (by norm_num; omega)]
  rw [show (2 : Nat) + 4 = 6 from rfl, show (16 : Nat) ^ 4 = 65536 from by norm_num]
  rw [fixedStr_append_fixedStr (b := 16) (p := 2) (q := 6) (x := g0)
      (y := g1 * 65536 + (g2 * 256 + g3)) (by omega) (by norm_num; omega)]
  rw [show (2 : Nat) + 6 = 8 from rfl, show (16 : Nat) ^ 6 = 16777216 from by norm_num]
  refine congrArg (fixedStr 16 8) ?_
  ring

end Ipv4

namespace Ipv4

example : natToBaseStr 16 255 = ['f', 'f'] := by decide
example : natToBaseStr 10 3232235904 = ('3' :: "232235904".data) := by decide
example : jsSplit '.' ("1.2.3".data) = ["1".data, "2".data, "3".data] := by decide
example : jsParseInt 10 ("134".data) = some 134 := by decide
example : jsSlice 0 4 ("110000".data) = "1100".data := by decide

example : (mkAddress4 ("192.168.1.134/26").data).valid = true := by decide
example : (mkAddress4 ("192.168.1.134/26").data).subnetMask = 26 := by decide
example : (mkAddress4 ("1.2.3.4/33").data).error = some invalidSubnetMsg := by decide
example : bigInteger (mkAddress4 ("192.168.1.134").data) = some 3232235910 := by decide
example : (startAddress (mkAddress4 ("192.168.1.134/26").data)).map correctForm
    = some (("192.168.1.128").data) := by decide
example : (endAddress (mkAddress4 ("192.168.1.134/26").data)).map correctForm
    = some (("192.168.1.191").data) := by decide
example : isMulticast (mkAddress4 ("224.0.0.1").data) = some true := by decide
example : isMulticast (mkAddress4 ("10.0.0.1").data) = some false := by decide
example : toArray (fromInteger ((4294967295 : Nat) : Int))
    = [some 255, some 255, some 255, some 255] := by decide
example : correctForm (fromInteger ((4294967296 : Nat) : Int)) = ("16.0.0.0").data := by
  decide

end Ipv4

namespace Ipv4

/-! ## Claim theorems -/

/-- C1 (amended): for every valid address/mask pair, the start address value
is ≤ the address value ≤ the end address value (all under unsigned 32-bit
integer ordering, the values staying inside [0, 2^32)); the exclusive
variants equal start+1 and end−1 exactly whenever that adjusted value still
fits in 32 bits (start+1 ≤ 2^32−1, resp. end ≥ 1) — which covers mask 0 and
mask 32 except for `startAddressExclusive` of 255.255.255.255/32 and
`endAddressExclusive` of 0.0.0.0/32, where the adjusted value leaves the
32-bit range and the reconversion pipeline yields a different address
instead of crashing. -/
theorem C1_subnet_boundaries (s : List Char) (h : (mkAddress4 s).valid = true) :
    ∃ v st en : Int,
      bigInteger (mkAddress4 s) = some v ∧
      Option.bind (startAddress (mkAddress4 s)) bigInteger = some st ∧
      Option.bind (endAddress (mkAddress4 s)) bigInteger = some en ∧
      st ≤ v ∧ v ≤ en ∧ 0 ≤ st ∧ en < 2 ^ 32 ∧
      (st + 1 < 2 ^ 32 →
        Option.bind (startAddressExclusive (mkAddress4 s)) bigInteger
          = some (st + 1)) ∧
      (1 ≤ en →
        Option.bind (endAddressExclusive (mkAddress4 s)) bigInteger
          = some (en - 1)) := by
  obtain ⟨V, m, hm, hV, hbig, hst, hen, hstle, hlev, henlt⟩ := boundaries_of_valid h
  have hstlt : V / 2 ^ (32 - m) * 2 ^ (32 - m) < 2 ^ 32 := lt_of_le_of_lt hstle hV
  refine ⟨((V : Nat) : Int), ((V / 2 ^ (32 - m) * 2 ^ (32 - m) : Nat) : Int),
    ((V / 2 ^ (32 - m) * 2 ^ (32 - m) + (2 ^ (32 - m) - 1) : Nat) : Int),
    hbig, ?_, ?_, by exact_mod_cast hstle, by exact_mod_cast hlev,
    by positivity, by exact_mod_cast henlt, ?_, ?_⟩
  · unfold startAddress
    rw [hst]
    simp only [Option.map_some', Option.some_bind]
    exact bigInteger_fromBigInteger hstlt
  · unfold endAddress
    rw [hen]
    simp only [Option.map_some', Option.some_bind]
    exact bigInteger_fromBigInteger henlt
  · intro hlt
    have hlt' : V / 2 ^ (32 - m) * 2 ^ (32 - m) + 1 < 2 ^ 32 := by
      have h32 : ((2 : Int) ^ 32) = ((2 ^ 32 : Nat) : Int) := by norm_cast
      rw [h32] at hlt
      omega
    unfold startAddressExclusive
    rw [hst]
    simp only [Option.map_some', Option.some_bind]
    have hcast : ((V / 2 ^ (32 - m) * 2 ^ (32 - m) : Nat) : Int) + 1
        = ((V / 2 ^ (32 - m) * 2 ^ (32 - m) + 1 : Nat) : Int) := by omega
    rw [hcast]
    exact bigInteger_fromBigInteger hlt'
  · intro hge
    have hge' : 1 ≤ V / 2 ^ (32 - m) * 2 ^ (32 - m) + (2 ^ (32 - m) - 1) := by
      exact_mod_cast hge
    unfold endAddressExclusive
    rw [hen]
    simp only [Option.map_some', Option.some_bind]
    have hcast : ((V / 2 ^ (32 - m) * 2 ^ (32 - m) + (2 ^ (32 - m) - 1) : Nat) : Int) - 1
        = ((V / 2 ^ (32 - m) * 2 ^ (32 - m) + (2 ^ (32 - m) - 1) - 1 : Nat) : Int) := by
      omega
    rw [hcast]
    exact bigInteger_fromBigInteger (by omega)

/-- C1 witness: the amended statement applied to 192.168.1.134/26. -/
theorem C1_subnet_boundaries_witness :
    (mkAddress4 (("192.168.1.134/26").data)).valid = true ∧
    (∃ v st en : Int,
      bigInteger (mkAddress4 (("192.168.1.134/26").data)) = some v ∧
      Option.bind (startAddress (mkAddress4 (("192.168.1.134/26").data))) bigInteger
        = some st ∧
      Option.bind (endAddress (mkAddress4 (("192.168.1.134/26").data))) bigInteger
        = some en ∧
      st ≤ v ∧ v ≤ en ∧ 0 ≤ st ∧ en < 2 ^ 32 ∧
      (st + 1 < 2 ^ 32 →
        Option.bind (startAddressExclusive (mkAddress4 (("192.168.1.134/26").data)))
          bigInteger = some (st + 1)) ∧
      (1 ≤ en →
        Option.bind (endAddressExclusive (mkAddress4 (("192.168.1.134/26").data)))
          bigInteger = some (en - 1))) :=
  ⟨by decide, C1_subnet_boundaries (("192.168.1.134/26").data) (by decide)⟩

/-- C1 counterexample to the claim as stated: for 255.255.255.255/32 the
start address value is 2^32−1 but `startAddressExclusive()` yields the
address 16.0.0.0 (value 2^28), not start+1 = 2^32. -/
theorem C1_counterexample :
    Option.bind (startAddress (mkAddress4 (("255.255.255.255/32").data))) bigInteger
      = some 4294967295 ∧
    Option.bind (startAddressExclusive (mkAddress4 (("255.255.255.255/32").data)))
      bigInteger = some 268435456 ∧
    (268435456 : Int) ≠ 4294967295 + 1 :=
  ⟨by decide, by decide, by decide⟩

/-- C2: for "192.168.1.134/26", `startAddress().correctForm()` is
"192.168.1.128" and `endAddress().correctForm()` is "192.168.1.191". -/
theorem C2_example_boundaries :
    (startAddress (mkAddress4 (("192.168.1.134/26").data))).map correctForm
      = some (("192.168.1.128").data) ∧
    (endAddress (mkAddress4 (("192.168.1.134/26").data))).map correctForm
      = some (("192.168.1.191").data) :=
  ⟨by decide, by decide⟩

/-- C4: for every n in [0, 2^32−1], `fromInteger(n).toArray()` is the 4-byte
big-endian decomposition of n: entries b0..b3 with
n = b0·2^24 + b1·2^16 + b2·2^8 + b3. -/
theorem C4_fromInteger_toArray (n : Nat) (h : n < 2 ^ 32) :
    toArray (fromInteger ((n : Nat) : Int))
      = [some ((n / 2 ^ 24 : Nat) : Int), some ((n / 2 ^ 16 % 256 : Nat) : Int),
         some ((n / 2 ^ 8 % 256 : Nat) : Int), some ((n % 256 : Nat) : Int)] ∧
    n / 2 ^ 24 * 2 ^ 24 + n / 2 ^ 16 % 256 * 2 ^ 16
      + n / 2 ^ 8 % 256 * 2 ^ 8 + n % 256 = n := by
  constructor
  · rw [fromInteger_parsed h]
    obtain ⟨-, hparsed, -⟩ := @mkAddress4_decimal_groups
      (n / 2 ^ 24) (n / 2 ^ 16 % 256) (n / 2 ^ 8 % 256) (n % 256)
      (by omega) (by omega) (by omega) (by omega)
    unfold toArray
    rw [hparsed]
    simp only [List.map_cons, List.map_nil]
    rw [jsParseInt_natToBaseStr (by omega) (by omega),
        jsParseInt_natToBaseStr (by omega) (by omega),
        jsParseInt_natToBaseStr (by omega) (by omega),
        jsParseInt_natToBaseStr (by omega) (by omega)]
  · omega

/-- C4 witness: the boundary value 4294967295 = 2^32−1. -/
theorem C4_fromInteger_toArray_witness :
    toArray (fromInteger ((4294967295 : Nat) : Int))
      = [some 255, some 255, some 255, some 255] :=
  ((C4_fromInteger_toArray 4294967295 (by norm_num)).1).trans (by decide)

/-- C5: for every valid Address4, `fromHex(addr.toHex()).correctForm()`
equals `addr.correctForm()`. -/
theorem C5_hex_roundtrip (s : List Char) (h : (mkAddress4 s).valid = true) :
    correctForm (fromHex (toHex (mkAddress4 s))) = correctForm (mkAddress4 s) := by
  obtain ⟨amin, hmin, hparsed, hmatch, -, -⟩ := mkAddress4_valid_destruct h
  obtain ⟨t0, t1, t2, t3, hsplit, h0, h1, h2, h3⟩ := matchesAddress_destruct hmatch
  have hp : (mkAddress4 s).parsedAddress = [t0, t1, t2, t3] := hparsed.trans hsplit
  obtain ⟨-, -, -, hv0⟩ := isAddressGroup_iff.mp h0
  obtain ⟨-, -, -, hv1⟩ := isAddressGroup_iff.mp h1
  obtain ⟨-, -, -, hv2⟩ := isAddressGroup_iff.mp h2
  obtain ⟨-, -, -, hv3⟩ := isAddressGroup_iff.mp h3
  have htoHex := toHex_of_parsed hp h0 h1 h2 h3
  set g0 := parseDigits 10 t0
  set g1 := parseDigits 10 t1
  set g2 := parseDigits 10 t2
  set g3 := parseDigits 10 t3
  set V : Nat := ((g0 * 256 + g1) * 256 + g2) * 256 + g3 with hVdef
  have hVlt : V < 2 ^ 32 := by rw [hVdef]; norm_num; omega
  have hfil : (toHex (mkAddress4 s)).filter (fun c => c ≠ ':') = fixedStr 16 8 V := by
    rw [htoHex, filter_ne_joinSep _ (fun t ht c hc => by
      simp only [List.mem_cons, List.not_mem_nil, or_false] at ht
      have hdig : ∀ g : Nat, c ∈ fixedStr 16 2 g → c ≠ ':' := by
        intro g hcg
        obtain ⟨m, hm, rfl⟩ := fixedStr_mem (by omega) 2 g c hcg
        exact (digitChar_not_special m hm).2.1
      rcases ht with rfl | rfl | rfl | rfl <;> exact hdig _ hc)]
    rw [List.flatten_cons, List.flatten_cons, List.flatten_cons, List.flatten_cons,
        List.flatten_nil, List.append_nil]
    exact concat4_fixedStr hv0 hv1 hv2 hv3
  have hpad : padStart 8 '0' ((toHex (mkAddress4 s)).filter (fun c => c ≠ ':'))
      = fixedStr 16 8 V := by
    rw [hfil]
    exact padStart_of_length (fixedStr_length 16 8 V)
  rw [fromHex_of_padded hVlt hpad]
  rw [show V / 2 ^ 24 = g0 from by
        rw [hVdef, show (2 : Nat) ^ 24 = 16777216 from by norm_num]; omega,
      show V / 2 ^ 16 % 256 = g1 from by
        rw [hVdef, show (2 : Nat) ^ 16 = 65536 from by norm_num]; omega,
      show V / 2 ^ 8 % 256 = g2 from by
        rw [hVdef, show (2 : Nat) ^ 8 = 256 from by norm_num]; omega,
      show V % 256 = g3 from by rw [hVdef]; omega]
  obtain ⟨-, hpa, -⟩ := mkAddress4_decimal_groups hv0 hv1 hv2 hv3
  rw [correctForm_of_parsed hpa (isAddressGroup_natToBaseStr hv0)
        (isAddressGroup_natToBaseStr hv1) (isAddressGroup_natToBaseStr hv2)
        (isAddressGroup_natToBaseStr hv3),
      correctForm_of_parsed hp h0 h1 h2 h3]
  rw [parseDigits_natToBaseStr (by omega) (by omega),
      parseDigits_natToBaseStr (by omega) (by omega),
      parseDigits_natToBaseStr (by omega) (by omega),
      parseDigits_natToBaseStr (by omega) (by omega)]

/-- C5 witness: the round-trip at "010.0.0.1", whose correct form is
"10.0.0.1". -/
theorem C5_hex_roundtrip_witness :
    (mkAddress4 (("010.0.0.1").data)).valid = true ∧
    correctForm (fromHex (toHex (mkAddress4 (("010.0.0.1").data))))
      = ("10.0.0.1").data :=
  ⟨by decide, (C5_hex_roundtrip (("010.0.0.1").data) (by decide)).trans (by decide)⟩

/-- C3: for a suffix-free input, the address is valid exactly when the
dotted-decimal grammar matches; then `correctForm` is the group values as
base-10 integers (leading zeros removed) joined by "."; otherwise the error
is "Invalid IPv4 address.". -/
theorem C3_grammar_parse (s : List Char) (hs : subnetSuffix s = none) :
    (matchesAddress s = true →
      (mkAddress4 s).valid = true ∧
      correctForm (mkAddress4 s) = joinSep ('.')
        ((jsSplit ('.') s).map (fun t => natToBaseStr 10 (parseDigits 10 t)))) ∧
    (matchesAddress s = false →
      (mkAddress4 s).valid = false ∧
      (mkAddress4 s).error = some invalidAddressMsg) := by
  have hval : (mkAddress4 s).valid = matchesAddress s := by
    rw [mkAddress4_of_no_suffix hs]
  have herr : (mkAddress4 s).error
      = (if matchesAddress s then none else some invalidAddressMsg) := by
    rw [mkAddress4_of_no_suffix hs]
  have hpar : (mkAddress4 s).parsedAddress = jsSplit ('.') s := by
    rw [mkAddress4_of_no_suffix hs]
  constructor
  · intro hm
    obtain ⟨t0, t1, t2, t3, hsplit, h0, h1, h2, h3⟩ := matchesAddress_destruct hm
    refine ⟨hval.trans hm, ?_⟩
    rw [correctForm_of_parsed (hpar.trans hsplit) h0 h1 h2 h3, hsplit]
    simp only [List.map_cons, List.map_nil]
  · intro hm
    exact ⟨hval.trans hm, by rw [herr, if_neg (by simp [hm])]⟩

/-- C3 witness: "010.0.0.1" parses valid with correct form "10.0.0.1";
"1.2.3.256" is invalid with error "Invalid IPv4 address.". -/
theorem C3_grammar_parse_witness :
    (mkAddress4 (("010.0.0.1").data)).valid = true ∧
    correctForm (mkAddress4 (("010.0.0.1").data)) = ("10.0.0.1").data ∧
    (mkAddress4 (("1.2.3.256").data)).valid = false ∧
    (mkAddress4 (("1.2.3.256").data)).error = some invalidAddressMsg := by
  have h1 := (C3_grammar_parse (("010.0.0.1").data) (by decide)).1 (by decide)
  have h2 := (C3_grammar_parse (("1.2.3.256").data) (by decide)).2 (by decide)
  exact ⟨h1.1, h1.2.trans (by decide), h2.1, h2.2⟩

/-- C6: an out-of-range subnet suffix makes the address invalid with error
"Invalid subnet mask.", the subnet label "/N" is still recorded, and group
parsing is skipped (no parsed groups, no suffix-free address). -/
theorem C6_invalid_mask (s suf : List Char) (hsuf : subnetSuffix s = some suf)
    (n : Int) (hn : jsParseInt 10 suf.tail = some n) (hout : n < 0 ∨ 32 < n) :
    (mkAddress4 s).valid = false ∧
    (mkAddress4 s).error = some invalidSubnetMsg ∧
    (mkAddress4 s).subnet = '/' :: intToDecStr n ∧
    (mkAddress4 s).parsedAddress = [] ∧
    (mkAddress4 s).addressMinusSuffix = none := by
  have hm : (jsParseInt 10 suf.tail).getD 0 = n := by rw [hn]; rfl
  have hbad : (jsParseInt 10 suf.tail).getD 0 < 0 ∨
      (jsParseInt 10 suf.tail).getD 0 > 32 := by
    rw [hm]
    omega
  rw [mkAddress4_of_suffix_bad hsuf hbad]
  refine ⟨rfl, rfl, ?_, rfl, rfl⟩
  show '/' :: intToDecStr ((jsParseInt 10 suf.tail).getD 0) = '/' :: intToDecStr n
  rw [hm]

/-- C6 witness: "1.2.3.4/33". -/
theorem C6_invalid_mask_witness :
    (mkAddress4 (("1.2.3.4/33").data)).valid = false ∧
    (mkAddress4 (("1.2.3.4/33").data)).error = some invalidSubnetMsg ∧
    (mkAddress4 (("1.2.3.4/33").data)).subnet = ("/33").data ∧
    (mkAddress4 (("1.2.3.4/33").data)).parsedAddress = [] ∧
    (mkAddress4 (("1.2.3.4/33").data)).addressMinusSuffix = none := by
  have h := C6_invalid_mask (("1.2.3.4/33").data) (("/33").data) (by decide) 33
    (by decide) (Or.inr (by norm_num))
  exact ⟨h.1, h.2.1, h.2.2.1.trans (by decide), h.2.2.2.1, h.2.2.2.2⟩

/-- Both constructor paths that reach group parsing store the split of the
suffix-free address. -/
theorem parse_view {s amin : List Char}
    (h : (mkAddress4 s).addressMinusSuffix = some amin) :
    (mkAddress4 s).parsedAddress = jsSplit ('.') amin ∧
    ((mkAddress4 s).valid = true → matchesAddress amin = true) := by
  cases hsuf : subnetSuffix s with
  | none =>
    rw [mkAddress4_of_no_suffix hsuf] at h ⊢
    have hs : s = amin := by
      have : some s = some amin := h
      simpa using this
    subst hs
    exact ⟨rfl, fun hv => hv⟩
  | some suf =>
    by_cases hm : (jsParseInt 10 suf.tail).getD 0 < 0 ∨
        (jsParseInt 10 suf.tail).getD 0 > 32
    · rw [mkAddress4_of_suffix_bad hsuf hm] at h
      exact absurd h (by simp)
    · rw [mkAddress4_of_suffix_ok hsuf hm] at h ⊢
      have hs : s.take (s.length - suf.length) = amin := by
        have : some (s.take (s.length - suf.length)) = some amin := h
        simpa using this
      rw [← hs]
      exact ⟨rfl, fun hv => hv⟩

/-- C8 (amended): whenever construction reaches group parsing (an invalid
mask does not cut it short), `parsedAddress` has exactly (number of "." in
the suffix-free address) + 1 entries; that is 4 precisely when the address
has three dots — in particular always 4 on a valid address, but not for
malformed group counts such as "1.2.3". -/
theorem C8_parsed_count (s amin : List Char)
    (h : (mkAddress4 s).addressMinusSuffix = some amin) :
    (mkAddress4 s).parsedAddress.length = amin.count ('.') + 1 ∧
    ((mkAddress4 s).valid = true → (mkAddress4 s).parsedAddress.length = 4) := by
  obtain ⟨hpar, hmat⟩ := parse_view h
  constructor
  · rw [hpar]
    exact jsSplit_length ('.') amin
  · intro hv
    have hm := hmat hv
    simp only [matchesAddress, Bool.and_eq_true, decide_eq_true_eq] at hm
    rw [hpar]
    exact hm.1

/-- C8 witness: for "1.2.3" group parsing completes and yields 3 entries. -/
theorem C8_parsed_count_witness :
    (mkAddress4 (("1.2.3").data)).parsedAddress.length = 3 :=
  ((C8_parsed_count (("1.2.3").data) (("1.2.3").data) (by decide)).1).trans (by decide)

/-- C8 counterexample to the claim as stated: "1.2.3" completes group
parsing (`addressMinusSuffix` is recorded) yet `parsedAddress` has 3
entries, not 4. -/
theorem C8_counterexample :
    (mkAddress4 (("1.2.3").data)).addressMinusSuffix = some (("1.2.3").data) ∧
    (mkAddress4 (("1.2.3").data)).parsedAddress.length ≠ 4 :=
  ⟨by decide, by decide⟩

/-- C7: on an invalid address `bigInteger()` is null, and consequently
`binaryZeroPad()`, `mask()`, `getBitsBase2()` and `isMulticast()` have no
result either; on a valid address it is the base-16 value of the
concatenated two-hex-digit group renderings, i.e. the groups combined
base 256. -/
theorem C7_bigInteger_null_or_value (s : List Char) :
    ((mkAddress4 s).valid = false →
      bigInteger (mkAddress4 s) = none ∧
      binaryZeroPad (mkAddress4 s) = none ∧
      (∀ m, maskBits (mkAddress4 s) m = none) ∧
      (∀ i j, getBitsBase2 (mkAddress4 s) i j = none) ∧
      isMulticast (mkAddress4 s) = none) ∧
    ((mkAddress4 s).valid = true →
      ∃ t0 t1 t2 t3, (mkAddress4 s).parsedAddress = [t0, t1, t2, t3] ∧
        bigInteger (mkAddress4 s)
          = some ((((parseDigits 10 t0 * 256 + parseDigits 10 t1) * 256
              + parseDigits 10 t2) * 256 + parseDigits 10 t3 : Nat) : Int)) := by
  constructor
  · intro hv
    have hbig : bigInteger (mkAddress4 s) = none := by
      simp [bigInteger, hv]
    have hbin : binaryZeroPad (mkAddress4 s) = none := by
      simp [binaryZeroPad, hbig]
    refine ⟨hbig, hbin, ?_, ?_, ?_⟩
    · intro m
      simp [maskBits, getBitsBase2, hbin]
    · intro i j
      simp [getBitsBase2, hbin]
    · unfold isMulticast isInSubnet
      rw [hbin]
  · intro hv
    obtain ⟨amin, hmin, hparsed, hmatch, -, -⟩ := mkAddress4_valid_destruct hv
    obtain ⟨t0, t1, t2, t3, hsplit, h0, h1, h2, h3⟩ := matchesAddress_destruct hmatch
    exact ⟨t0, t1, t2, t3, hparsed.trans hsplit,
      bigInteger_of_valid hv (hparsed.trans hsplit) h0 h1 h2 h3⟩

/-- C7 witness: "abc" is invalid and delivers no big integer (nor any
derived binary form); "1.2.3.4" delivers 0x01020304 = 16909060. -/
theorem C7_bigInteger_witness :
    bigInteger (mkAddress4 (("abc").data)) = none ∧
    isMulticast (mkAddress4 (("abc").data)) = none ∧
    bigInteger (mkAddress4 (("1.2.3.4").data)) = some 16909060 := by
  have ha := (C7_bigInteger_null_or_value (("abc").data)).1 (by decide)
  have hb := (C7_bigInteger_null_or_value (("1.2.3.4").data)).2 (by decide)
  refine ⟨ha.1, ha.2.2.2.2, ?_⟩
  obtain ⟨t0, t1, t2, t3, hp, hbig⟩ := hb
  have ht : [t0, t1, t2, t3] = [['1'], ['2'], ['3'], ['4']] := hp.symm.trans (by decide)
  simp only [List.cons.injEq, and_true] at ht
  obtain ⟨rfl, rfl, rfl, rfl⟩ := ht
  exact hbig.trans (by decide)

/-- C9: for every valid Address4, `isMulticast()` is the `isInSubnet` test
against 224.0.0.0/4: it holds exactly when the top 4 bits of the address
value equal the top 4 bits of 224.0.0.0 (i.e. 14); in particular
"224.0.0.1" is multicast and "10.0.0.1" is not. -/
theorem C9_isMulticast_top_bits :
    (∀ s, (mkAddress4 s).valid = true →
      ∃ V : Nat, bigInteger (mkAddress4 s) = some ((V : Nat) : Int) ∧
        (isMulticast (mkAddress4 s) = some true ↔ V / 2 ^ 28 = 14)) ∧
    isMulticast (mkAddress4 (("224.0.0.1").data)) = some true ∧
    isMulticast (mkAddress4 (("10.0.0.1").data)) = some false := by
  refine ⟨?_, by decide, by decide⟩
  intro s h
  obtain ⟨V, m, hm, hV, hbig, -, -, -, -, -⟩ := boundaries_of_valid h
  have hbin := binaryZeroPad_of_valid hbig hV
  refine ⟨V, hbig, ?_⟩
  unfold isMulticast isInSubnet
  rw [hbin]
  have hMbin : binaryZeroPad (mkAddress4 (("224.0.0.0/4").data))
      = some (fixedStr 2 32 3758096384) := by decide
  rw [hMbin]
  show some (jsSlice 0 (mkAddress4 (("224.0.0.0/4").data)).subnetMask (fixedStr 2 32 V)
      == jsSlice 0 (mkAddress4 (("224.0.0.0/4").data)).subnetMask
           (fixedStr 2 32 3758096384)) = some true ↔ V / 2 ^ 28 = 14
  have hMsub : (mkAddress4 (("224.0.0.0/4").data)).subnetMask = (4 : Int) := by decide
  rw [hMsub]
  rw [show jsSlice 0 (4 : Int) (fixedStr 2 32 3758096384) = ['1', '1', '1', '0']
      from by decide]
  have hsl : jsSlice 0 (4 : Int) (fixedStr 2 32 V) = fixedStr 2 4 (V / 2 ^ 28) := by
    rw [jsSlice_int_eq_take_drop (by norm_num) (by norm_num)
        (by rw [fixedStr_length]; norm_num)]
    rw [show ((0 : Int)).toNat = 0 from by decide, List.drop_zero,
        show ((4 : Int) - 0).toNat = 4 from by decide]
    rw [fixedStr_take 32 4 V (by omega), show (32 : Nat) - 4 = 28 from by norm_num]
  rw [hsl]
  constructor
  · intro he
    have hbeq : (fixedStr 2 4 (V / 2 ^ 28) == ['1', '1', '1', '0']) = true := by
      simpa using he
    have heq : fixedStr 2 4 (V / 2 ^ 28) = ['1', '1', '1', '0'] := eq_of_beq hbeq
    have hp := congrArg (parseDigits 2) heq
    rw [parseDigits_fixedStr (by omega) (by omega)] at hp
    have h14 : parseDigits 2 (['1', '1', '1', '0']) = 14 := by decide
    rw [h14] at hp
    have hlt : V / 2 ^ 28 < 2 ^ 4 := by
      rw [Nat.div_lt_iff_lt_mul (by norm_num)]
      calc V < 2 ^ 32 := hV
      _ = 2 ^ 4 * 2 ^ 28 := by norm_num
    rwa [Nat.mod_eq_of_lt hlt] at hp
  · intro he
    rw [he]
    decide

/-- C9 witness: the general statement applied to "224.0.0.1". -/
theorem C9_isMulticast_witness :
    ∃ V : Nat, bigInteger (mkAddress4 (("224.0.0.1").data)) = some ((V : Nat) : Int) ∧
      (isMulticast (mkAddress4 (("224.0.0.1").data)) = some true ↔ V / 2 ^ 28 = 14) :=
  C9_isMulticast_top_bits.1 (("224.0.0.1").data) (by decide)

/-- C10: when the colon-stripped hex string has at least 8 characters,
`fromHex` reads only the first 8 and ignores the rest; hence for n ≥ 2^32,
`fromInteger(n)` is built from the leading 8 hex digits of n, not from
n mod 2^32 — e.g. fromInteger(2^32) is "16.0.0.0". -/
theorem C10_fromHex_ignores_tail :
    (∀ hex : List Char, 8 ≤ (hex.filter (fun c => c ≠ ':')).length →
      fromHex hex = fromHex ((hex.filter (fun c => c ≠ ':')).take 8)) ∧
    (∀ n : Nat, 2 ^ 32 ≤ n →
      fromInteger ((n : Nat) : Int) = fromHex ((natToBaseStr 16 n).take 8)) ∧
    correctForm (fromInteger ((4294967296 : Nat) : Int)) = ("16.0.0.0").data := by
  have hpart1 : ∀ hex : List Char, 8 ≤ (hex.filter (fun c => c ≠ ':')).length →
      fromHex hex = fromHex ((hex.filter (fun c => c ≠ ':')).take 8) := by
    intro hex hlen
    simp only [fromHex]
    set cs := hex.filter (fun c => c ≠ ':') with hcs
    have hfil2 : ((cs.take 8).filter (fun c => c ≠ ':')) = cs.take 8 := by
      apply List.filter_eq_self.mpr
      intro c hc
      have hc' : c ∈ List.filter (fun c => decide (c ≠ ':')) hex := by
        rw [← hcs]
        exact List.take_subset 8 cs hc
      simpa using List.of_mem_filter hc'
    rw [hfil2]
    have hp1 : padStart 8 '0' cs = cs := by
      simp [padStart, Nat.sub_eq_zero_of_le hlen]
    have hp2 : padStart 8 '0' (cs.take 8) = cs.take 8 := by
      have : (cs.take 8).length = 8 := by
        rw [List.length_take]
        omega
      simp [padStart, this]
    rw [hp1, hp2]
    have hsl : ∀ i j : Int, 0 ≤ i → i ≤ j → j ≤ 8 →
        jsSlice i j cs = jsSlice i j (cs.take 8) := by
      intro i j h0 hij hj8
      have hlen8 : ((cs.take 8).length : Int) = 8 := by
        rw [List.length_take]
        omega
      rw [jsSlice_int_eq_take_drop h0 hij
            (le_trans hj8 (by exact_mod_cast hlen)),
          jsSlice_int_eq_take_drop h0 hij (by rw [hlen8]; exact hj8)]
      rw [List.drop_take, List.take_take, min_eq_left (by omega)]
    rw [hsl 0 2 (by norm_num) (by norm_num) (by norm_num),
        hsl 2 4 (by norm_num) (by norm_num) (by norm_num),
        hsl 4 6 (by norm_num) (by norm_num) (by norm_num),
        hsl 6 8 (by norm_num) (by norm_num) (by norm_num)]
  refine ⟨hpart1, ?_, by decide⟩
  intro n hn
  unfold fromInteger
  rw [show intToBaseStr 16 ((n : Nat) : Int) = natToBaseStr 16 n by
    simp [intToBaseStr]]
  have hfilid : (natToBaseStr 16 n).filter (fun c => c ≠ ':') = natToBaseStr 16 n := by
    apply List.filter_eq_self.mpr
    intro c hc
    obtain ⟨m, hm, rfl⟩ := natToBaseStr_mem (by omega) n c hc
    simpa using (digitChar_not_special m hm).2.1
  have hlen : 8 ≤ (natToBaseStr 16 n).length := by
    by_contra hcon
    have hle : (natToBaseStr 16 n).length ≤ 8 := by omega
    have hl := natToBaseStr_lt (b := 16) (by omega) n
    have : (16 : Nat) ^ (natToBaseStr 16 n).length ≤ 16 ^ 8 :=
      Nat.pow_le_pow_right (by omega) hle
    have h168 : (16 : Nat) ^ 8 = 2 ^ 32 := by norm_num
    omega
  have h1 := hpart1 (natToBaseStr 16 n) (by rw [hfilid]; exact hlen)
  rw [hfilid] at h1
  exact h1

/-- C10 witness: a 10-digit hex string is truncated to its first 8 digits,
and fromInteger(2^32) is built from the 8 leading hex digits of
"100000000". -/
theorem C10_fromHex_ignores_tail_witness :
    fromHex (("aabbccddee").data) = fromHex (("aabbccdd").data) ∧
    fromInteger ((4294967296 : Nat) : Int) = fromHex (("10000000").data) :=
  ⟨(C10_fromHex_ignores_tail.1 (("aabbccddee").data) (by decide)).trans
      (congrArg fromHex (by decide)),
   (C10_fromHex_ignores_tail.2.1 4294967296 (by norm_num)).trans
      (congrArg fromHex (by decide))⟩

end Ipv4
